import Mathlib

/-!
Verification of the hgrid Tree/Leaf model and its row-store synchronization
(src/src/hgrid.js and src/plugins/hgrid-draggable/src/hgrid-draggable.js).

The JavaScript code is shallowly embedded: the mutable Tree/Leaf objects
become an inductive type, the SlickGrid DataView (an external collaborator,
modelled from its documented row-store contract: a row-indexed list of items
with insert-at-index, delete-by-id and lookup-by-id) becomes a list of items,
and each mutating method becomes a function from store to store.
JavaScript field updates on store items become list maps keyed by item id;
boolean flags that may be undefined in JavaScript are modelled as booleans
(undefined behaves as false everywhere the code reads them).
-/

namespace HGridJS

/-- Identifier of a node: the reserved root sentinel (ROOT_ID) or a number
(either user supplied via data.id or generated by the global id counter). -/
inductive NId where
  | root : NId
  | node : Nat → NId
deriving DecidableEq, Repr

/-- Numeric part of an id, when there is one. -/
def NId.toNat? : NId → Option Nat
  | NId.root => none
  | NId.node n => some n

/-- String constant FILE from the source. -/
def FILE : String := "file"

/-- String constant FOLDER from the source. -/
def FOLDER : String := "folder"

/-- User supplied data object attached to a node (this.data in the source).
Optional fields model presence or absence of the corresponding JavaScript
property; a present field overrides the structural field in the jQuery
extend merge performed by toData. -/
structure ObjData where
  oid : Option Nat
  kind : String
  name : String
  oparentID : Option NId
  odepth : Option Nat
  ocollapsed : Option Bool
  ohidden : Option Bool
deriving DecidableEq, Repr

/-- Plain user data carrying only a kind and a name (no structural overrides). -/
def plainData (kind name : String) : ObjData :=
  { oid := none, kind := kind, name := name, oparentID := none,
    odepth := none, ocollapsed := none, ohidden := none }

/-- Nested hierarchy input to Tree.fromObject: an object with a data payload
and an optional children array (absent children modelled as the empty list). -/
inductive HObj where
  | mk : ObjData → List HObj → HObj

/-- Data payload of a hierarchy object. -/
def HObj.data : HObj → ObjData
  | HObj.mk d _ => d

/-- Children array of a hierarchy object. -/
def HObj.children : HObj → List HObj
  | HObj.mk _ cs => cs

/-- Structural fields shared by Tree and Leaf instances: id, parentID and
depth (null before attach, modelled by Option), plus the data payload.
A root Tree is the one with id = NId.root, depth = some 0; its data payload
is never read because toData skips the node of depth 0. -/
structure NInfo where
  id : NId
  parentID : Option NId
  depth : Option Nat
  data : ObjData
deriving DecidableEq, Repr

/-- A node of the grid tree: a Leaf (file, no children) or a Tree
(folder or root, with an ordered child list). -/
inductive HNode where
  | leaf : NInfo → HNode
  | tree : NInfo → List HNode → HNode

/-- Structural fields of a node. -/
def HNode.info : HNode → NInfo
  | HNode.leaf i => i
  | HNode.tree i _ => i

/-- Child list of a node (empty for a Leaf, as in the source). -/
def HNode.children : HNode → List HNode
  | HNode.leaf _ => []
  | HNode.tree _ cs => cs

/-- Allocation of an id as done in the Tree and Leaf constructors: take
data.id when present, otherwise the next value of the global id counter
(the counter is threaded explicitly). -/
def idAlloc (o : Option Nat) (c : Nat) : NId × Nat :=
  match o with
  | some n => (NId.node n, c)
  | none => (NId.node c, c + 1)

mutual
/-- Embeds Tree.fromObject on a single (non array) object together with the
attach work done by the caller through Tree.prototype.add: the constructed
subtree (or Leaf, when data.kind is FILE) receives parentID and
depth = parent depth + 1. The id counter is threaded in allocation order:
the node's own id first, then its children left to right. -/
def fromObject (h : HObj) (pid : NId) (pdepth : Nat) (c : Nat) : HNode × Nat :=
  match h with
  | HObj.mk d cs =>
    if d.kind = FILE then
      let (i, c1) := idAlloc d.oid c
      (HNode.leaf { id := i, parentID := some pid, depth := some (pdepth + 1), data := d }, c1)
    else
      let (i, c1) := idAlloc d.oid c
      let (kids, c2) := fromObjectList cs i (pdepth + 1) c1
      (HNode.tree { id := i, parentID := some pid, depth := some (pdepth + 1), data := d } kids, c2)

/-- Builds the children of a folder in input order. -/
def fromObjectList (hs : List HObj) (pid : NId) (pdepth : Nat) (c : Nat) :
    List HNode × Nat :=
  match hs with
  | [] => ([], c)
  | h :: rest =>
    let (g, c1) := fromObject h pid pdepth c
    let (gs, c2) := fromObjectList rest pid pdepth c1
    (g :: gs, c2)
end

/-- Data payload used for the root node; never read, because toData skips
the node of depth 0. -/
def rootData : ObjData := plainData FOLDER ""

/-- Embeds Tree.fromObject applied to an array: a fresh root (id NId.root,
depth 0) whose children are built from the array elements in order. -/
def fromObjectArray (hs : List HObj) (c : Nat) : HNode × Nat :=
  let (kids, c1) := fromObjectList hs NId.root 0 c
  (HNode.tree { id := NId.root, parentID := none, depth := some 0, data := rootData } kids, c1)

/-- Row object held by the DataView: the structural fields merged with the
user data, as produced by toData. The node field models the _node back
reference. -/
structure Item where
  id : NId
  parentID : Option NId
  node : Option HNode
  depth : Option Nat
  kind : String
  name : String
  collapsed : Bool
  hidden : Bool

/-- Merge performed by toData in both Tree and Leaf:
jQuery.extend({}, {id, parentID, _node, depth}, this.data). The structural
fields come first and every field present in the user data overrides them;
a user data id is the node's own id already (the constructors copy it), so
the id merge is the identity in this model. -/
def mkItem (n : HNode) : Item :=
  let i := n.info
  { id := i.id
    parentID := match i.data.oparentID with
      | some p => some p
      | none => i.parentID
    node := some n
    depth := match i.data.odepth with
      | some d => some d
      | none => i.depth
    kind := i.data.kind
    name := i.data.name
    collapsed := i.data.ocollapsed.getD false
    hidden := i.data.ohidden.getD false }

mutual
/-- Embeds Tree.prototype.toData and Leaf.prototype.toData with the memoized
result array made explicit: a Tree contributes its own item unless its depth
is 0 (the root check this.depth !== 0), then its children in order; a Leaf
contributes its item. -/
def HNode.toData : HNode → List Item
  | HNode.leaf i => [mkItem (HNode.leaf i)]
  | HNode.tree i cs =>
    (if i.depth = some 0 then [] else [mkItem (HNode.tree i cs)]) ++ HNode.toDataList cs

/-- Concatenation of the children's toData contributions, in child order. -/
def HNode.toDataList : List HNode → List Item
  | [] => []
  | g :: gs => g.toData ++ HNode.toDataList gs
end

/-- Projection of an item to its observable file listing content:
kind, name and depth. -/
def itemProj (it : Item) : String × String × Option Nat :=
  (it.kind, it.name, it.depth)

mutual
/-- Specification side pre-order flatten of a hierarchy, written from the
claim: every object of the hierarchy paired with its nesting level, self
before children, children in input order. -/
def specPreOrder (h : HObj) (level : Nat) : List (ObjData × Nat) :=
  match h with
  | HObj.mk d cs => (d, level) :: specPreOrderList cs (level + 1)

/-- Pre-order flatten of a list of sibling hierarchy objects. -/
def specPreOrderList (hs : List HObj) (level : Nat) : List (ObjData × Nat) :=
  match hs with
  | [] => []
  | h :: rest => specPreOrder h level ++ specPreOrderList rest level
end

mutual
/-- Well-formedness of a hierarchy object as assumed by the claim: user data
never carries a depth override, and file objects have no children (the code
silently drops children of a file, so pre-order preservation needs this). -/
def HObj.wf : HObj → Bool
  | HObj.mk d cs => d.odepth = none && (d.kind ≠ FILE || cs.isEmpty) && HObj.wfList cs

/-- Well-formedness of a list of hierarchy objects. -/
def HObj.wfList : List HObj → Bool
  | [] => true
  | h :: rest => h.wf && HObj.wfList rest
end

/-- Hierarchy from the spec's end-to-end scenario: a docs folder containing
a.txt, plus a top-level file b.txt. -/
def docsHierarchy : List HObj :=
  [HObj.mk (plainData FOLDER "docs") [HObj.mk (plainData FILE "a.txt") []],
   HObj.mk (plainData FILE "b.txt") []]

/-- Row store of the grid: the DataView's item list in row order, modelled
from the documented row-store contract. -/
abbrev Store := List Item

/-- Lookup of an item by id (DataView.getItemById). -/
def getItemById (s : Store) (i : NId) : Option Item :=
  s.find? fun it => decide (it.id = i)

/-- Row index of an id (DataView.getIdxById); only meaningful when the id
is present. -/
def getIdxById (s : Store) (i : NId) : Nat :=
  s.findIdx fun it => decide (it.id = i)

/-- Field update of the store item carrying a given id, modelling a property
assignment through the object reference returned by getItem. Items whose id
differs are untouched; an absent id makes the update a no-op (the source
would fail there, and every claim about these operations assumes the
subtree is materialized). -/
def updateItemById (s : Store) (i : NId) (f : Item → Item) : Store :=
  s.map fun it => if it.id = i then f it else it

/-- Deletion of the row carrying a given id (DataView.deleteItem): removes
the first matching row. -/
def deleteItem (s : Store) (i : NId) : Store :=
  s.eraseP fun it => decide (it.id = i)

/-- Visibility filter installed by _initDataView (collapseFilter in the
source): a row is visible when _hidden is falsy. -/
def collapseFilter (it : Item) : Bool :=
  !it.hidden

/-- Visible rows of the store: the rows passing collapseFilter. -/
def visibleRows (s : Store) : Store :=
  s.filter collapseFilter

mutual
/-- Embeds Tree.prototype.collapse and Leaf.prototype.collapse as store
transformers. A Tree hides itself when hideSelf is set, otherwise marks
itself collapsed and visible; then every child is collapsed with
hideSelf = true. A Leaf sets both flags (its collapse method ignores the
argument). -/
def HNode.collapse : HNode → Bool → Store → Store
  | HNode.leaf info, _, s =>
    updateItemById s info.id fun it => { it with collapsed := true, hidden := true }
  | HNode.tree info cs, hideSelf, s =>
    let s1 :=
      if hideSelf then
        updateItemById s info.id fun it => { it with hidden := true }
      else
        updateItemById s info.id fun it => { it with collapsed := true, hidden := false }
    HNode.collapseList cs s1

/-- Sequential collapse of a child list, each with hideSelf = true. -/
def HNode.collapseList : List HNode → Store → Store
  | [], s => s
  | g :: gs, s => HNode.collapseList gs (g.collapse true s)
end

/-- Collapsed flag the expand recursion reads off the store after updating
this node's item: true also when the item is absent, in which case the
recursion cannot proceed. -/
def stopAt (s : Store) (i : NId) : Bool :=
  match getItemById s i with
  | some it => it.collapsed
  | none => true

mutual
/-- Embeds Tree.prototype.expand and Leaf.prototype.expand as store
transformers. On the first call (notFirst = false) a Tree clears _collapsed,
always clears _hidden, and recurses into children only while its own item is
not marked collapsed; descendant calls pass notFirst = true. A Leaf clears
both flags regardless of the argument. -/
def HNode.expand : HNode → Bool → Store → Store
  | HNode.leaf info, _, s =>
    updateItemById s info.id fun it => { it with collapsed := false, hidden := false }
  | HNode.tree info cs, notFirst, s =>
    let s1 :=
      if notFirst then
        updateItemById s info.id fun it => { it with hidden := false }
      else
        updateItemById s info.id fun it => { it with collapsed := false, hidden := false }
    if stopAt s1 info.id then s1 else HNode.expandList cs s1

/-- Sequential expand of a child list, each with notFirst = true. -/
def HNode.expandList : List HNode → Store → Store
  | [], s => s
  | g :: gs, s => HNode.expandList gs (g.expand true s)
end

mutual
/-- Ids of all nodes of a subtree, the node itself included. -/
def HNode.subtreeIds : HNode → List NId
  | HNode.leaf i => [i.id]
  | HNode.tree i cs => i.id :: HNode.subtreeIdsList cs

/-- Ids of all nodes of a forest. -/
def HNode.subtreeIdsList : List HNode → List NId
  | [] => []
  | g :: gs => g.subtreeIds ++ HNode.subtreeIdsList gs
end

mutual
/-- All nodes of a subtree, the node itself included. -/
def HNode.allNodes : HNode → List HNode
  | HNode.leaf i => [HNode.leaf i]
  | HNode.tree i cs => HNode.tree i cs :: HNode.allNodesList cs

/-- All nodes of a forest. -/
def HNode.allNodesList : List HNode → List HNode
  | [] => []
  | g :: gs => g.allNodes ++ HNode.allNodesList gs
end

mutual
/-- Ids of the Leaf nodes of a subtree. -/
def HNode.leafIds : HNode → List NId
  | HNode.leaf i => [i.id]
  | HNode.tree _ cs => HNode.leafIdsList cs

/-- Ids of the Leaf nodes of a forest. -/
def HNode.leafIdsList : List HNode → List NId
  | [] => []
  | g :: gs => g.leafIds ++ HNode.leafIdsList gs
end

mutual
/-- Ids of the Tree (folder) nodes of a subtree, the node itself included
when it is a Tree. -/
def HNode.folderIds : HNode → List NId
  | HNode.leaf _ => []
  | HNode.tree i cs => i.id :: HNode.folderIdsList cs

/-- Ids of the Tree nodes of a forest. -/
def HNode.folderIdsList : List HNode → List NId
  | [] => []
  | g :: gs => g.folderIds ++ HNode.folderIdsList gs
end

mutual
/-- Per-item effect of a collapse cascade: collapse with hideSelf = true is
a pointwise transformation of the store, computed here item by item. -/
def collapseFun (n : HNode) (hideSelf : Bool) (it : Item) : Item :=
  match n with
  | HNode.leaf info =>
    if it.id = info.id then { it with collapsed := true, hidden := true } else it
  | HNode.tree info cs =>
    collapseFunList cs
      (if it.id = info.id then
        (if hideSelf then { it with hidden := true }
         else { it with collapsed := true, hidden := false })
       else it)

/-- Per-item effect of collapsing a child list (each with hideSelf = true). -/
def collapseFunList (ns : List HNode) (it : Item) : Item :=
  match ns with
  | [] => it
  | g :: gs => collapseFunList gs (collapseFun g true it)
end

/-- Tree built from the end-to-end scenario hierarchy with the id counter
at 0: docs gets id 0, a.txt id 1, b.txt id 2. -/
def docsTree : HNode := (fromObjectArray docsHierarchy 0).1

/-- Store produced by flattening the scenario tree. -/
def docsStore : Store := docsTree.toData

/-- Structural fields of the docs folder node of the scenario. -/
def docsInfo : NInfo :=
  { id := NId.node 0, parentID := some NId.root, depth := some 1,
    data := plainData FOLDER "docs" }

/-- Structural fields of the a.txt leaf node of the scenario. -/
def aTxtInfo : NInfo :=
  { id := NId.node 1, parentID := some (NId.node 0), depth := some 2,
    data := plainData FILE "a.txt" }

/-- Children of the docs folder node of the scenario. -/
def docsChildren : List HNode := [HNode.leaf aTxtInfo]

/-- Ids of the root nodes of a forest (the direct children of a folder). -/
def headIds (ns : List HNode) : List NId :=
  ns.map fun c => c.info.id

/-- Scenario store in which the a.txt row was first marked collapsed and
hidden (as a collapse of the leaf row would leave it). -/
def docsStoreACollapsed : Store :=
  updateItemById docsStore (NId.node 1)
    (fun a => { a with collapsed := true, hidden := true })

/-- Scenario store after collapsing the docs folder as the end-to-end
scenario does before the removal (toggleCollapse calls Tree.collapse with
no argument, so hideSelf is falsy): docs is collapsed but visible and
a.txt is hidden. -/
def docsCollapsedStore : Store :=
  (HNode.tree docsInfo docsChildren).collapse false docsStore

/-- Data of a new file added under the docs folder of the scenario, as the
grid builds it along the addItem path from name, kind and parentID. -/
def addItemData : ObjData :=
  { oid := none, kind := FILE, name := "d.txt", oparentID := some (NId.node 0),
    odepth := none, ocollapsed := none, ohidden := none }

/-- Row of a.txt inside docsStoreACollapsed. -/
def aTxtRow : Item :=
  { id := NId.node 1, parentID := some (NId.node 0),
    node := some (HNode.leaf aTxtInfo), depth := some 2, kind := FILE,
    name := "a.txt", collapsed := true, hidden := true }

mutual
/-- Post-state characterization of an expand call: the node's own row has
the flags the call clears, and when the recursion can proceed (the node's
row is present and not collapsed) every child is in the corresponding
descendant post-state. An expand call on such a store is the identity. -/
def ExpandedN : HNode → Bool → Store → Prop
  | HNode.leaf info, _, s =>
    ∀ it ∈ s, it.id = info.id → it.collapsed = false ∧ it.hidden = false
  | HNode.tree info cs, nf, s =>
    (∀ it ∈ s, it.id = info.id →
      (nf = false → it.collapsed = false) ∧ it.hidden = false) ∧
    (stopAt s info.id = false → ExpandedL cs s)

/-- List version of ExpandedN, with the descendant flag set. -/
def ExpandedL : List HNode → Store → Prop
  | [], _ => True
  | c :: cs, s => ExpandedN c true s ∧ ExpandedL cs s
end

/-- State of a grid instance: the Tree structure and the row store it
wraps. -/
structure HGridState where
  tree : HNode
  store : Store

/-- Embeds HGrid.prototype.removeItem: looks the item up by id, deletes
that single row from the DataView, and returns the item. The Tree and Leaf
structure is not consulted at all. -/

def removeItem (g : HGridState) (i : NId) : Option Item × HGridState :=
  (getItemById g.store i, { tree := g.tree, store := deleteItem g.store i })

/-- Embeds the HGridError constructor: a named error kind with a message. -/
structure HGridError where
  name : String
  message : String
deriving DecidableEq, Repr

/-- Construction of an HGridError as in the source: the name is always
HGridError. -/
def newHGridError (msg : String) : HGridError :=
  { name := "HGridError", message := msg }

/-- Configuration flags of the HGrid constructor that decide its synchronous
failures: whether options.data and options.ajaxSource are supplied (truthy)
and whether uploads are enabled. -/
structure HGridOptions where
  data : Bool
  ajaxSource : Bool
  uploads : Bool
deriving DecidableEq, Repr

/-- Embeds Tree.prototype.updateDataView: fails with an HGridError when the
node has no DataView (it was not called on a root and never attached), else
replaces the store contents with the node's flattened data. -/
def updateDataView (dataView : Option Store) (t : HNode) : Except HGridError Store :=
  match dataView with
  | none => Except.error (newHGridError
      "Tree does not have a DataView. updateDataView must be called on a root node.")
  | some _ => Except.ok t.toData

/-- Embeds the uploads check of HGrid.prototype.init: enabling uploads
without the Dropzone library loaded fails with an HGridError. -/
def initUploads (uploads dropzoneLoaded : Bool) : Except HGridError Unit :=
  if uploads && !dropzoneLoaded then
    Except.error (newHGridError "uploads=true requires DropZone to be loaded")
  else
    Except.ok ()

/-- Embeds the failure behavior of the HGrid constructor: first the check
that data and ajaxSource are not both supplied, then (after the tree build,
whose updateDataView call runs on a root that always owns a DataView and
cannot fail) the init call with its uploads check. -/
def hgridConstruct (o : HGridOptions) (dropzoneLoaded : Bool) :
    Except HGridError Unit :=
  if o.data && o.ajaxSource then
    Except.error (newHGridError "Cannot specify both \x22data\x22 and \x22ajaxSource\x22")
  else
    initUploads o.uploads dropzoneLoaded

/-- Embeds computeAddIdx: the insertion index for an item is the row index
of its parent in the DataView plus one, or 0 when the parent id resolves to
no store row (in particular when the parent is the unmaterialized root). -/
def computeAddIdx (it : Item) (s : Store) : Nat :=
  match it.parentID.bind (fun pid => getItemById s pid) with
  | some p => getIdxById s p.id + 1
  | none => 0

/-- Sequential insertion of toData rows, each at its computeAddIdx position
against the store as grown so far (the array branch of insertIntoDataView). -/
def insertData (s : Store) : List Item → Store
  | [] => s
  | d :: ds => insertData (s.insertIdx (computeAddIdx d s) d) ds

/-- Embeds Tree.prototype.insertIntoDataView: a Leaf produces a single item
object inserted at its computed index; a Tree produces an array of rows,
each inserted in turn. -/
def insertIntoDataView (s : Store) (c : HNode) : Store :=
  match c with
  | HNode.leaf info =>
    let d := mkItem (HNode.leaf info)
    s.insertIdx (computeAddIdx d s) d
  | HNode.tree info cs => insertData s (HNode.toData (HNode.tree info cs))

/-- Field assignments performed by Tree.prototype.add on the attached
component: parentID becomes the parent's id and depth the parent's depth
plus one (a null parent depth behaves as 0, as the JavaScript addition
does). -/
def setAttached (c : HNode) (pid : NId) (pdepth : Option Nat) : HNode :=
  match c with
  | HNode.leaf i =>
    HNode.leaf { i with parentID := some pid, depth := some (pdepth.getD 0 + 1) }
  | HNode.tree i cs =>
    HNode.tree { i with parentID := some pid, depth := some (pdepth.getD 0 + 1) } cs

/-- Embeds Tree.prototype.add: sets the component's parentID, depth and
shared store reference, appends it to the child list, and optionally
inserts its rows into the DataView. Only a Tree has this method; calling it
on a Leaf has no embedding (none). Returns the updated parent, the attached
component and the resulting store. -/
def HNode.add : HNode → HNode → Bool → Store → Option (HNode × HNode × Store)
  | HNode.tree i cs, c, sync, s =>
    let c2 := setAttached c i.id i.depth
    some (HNode.tree i (cs ++ [c2]), c2,
      if sync then insertIntoDataView s c2 else s)
  | HNode.leaf _, _, _, _ => none

/-- Data of a new file added under docs in the C4 witness. -/
def newLeafInfo : NInfo :=
  { id := NId.node 9, parentID := none, depth := none,
    data := plainData FILE "c.txt" }

/-- Copy of a moved row as built by onMoveRows in the draggable plugin: all
row properties are copied, parentID is replaced by the drop target folder's
id, and the depth and _node properties are deleted. -/
def itemToObjData (it : Item) (newParent : NId) : ObjData :=
  { oid := it.id.toNat?, kind := it.kind, name := it.name,
    oparentID := some newParent, odepth := none,
    ocollapsed := some it.collapsed, ohidden := some it.hidden }

/-- Id carried by a copied data object (the id property of the copy). -/
def idOfData (d : ObjData) : NId :=
  match d.oid with
  | some n => NId.node n
  | none => NId.root

/-- Embeds HGrid.prototype.getNodeByID: the root sentinel and null resolve
to the grid's root tree; any other id resolves through the store row's
_node back reference. -/
def getNodeByID (root : HNode) (s : Store) (i : Option NId) : Option HNode :=
  match i with
  | none => some root
  | some NId.root => some root
  | some (NId.node m) => (getItemById s (NId.node m)).bind Item.node

/-- Node construction of HGrid.prototype.addItem: a fresh Tree (with empty
child list) for folder kind and a fresh Leaf otherwise, the id taken from
the data or the counter. -/
def newNodeFor (d : ObjData) (c : Nat) : HNode :=
  if d.kind = FOLDER then
    HNode.tree
      { id := (idAlloc d.oid c).1, parentID := none, depth := none, data := d }
      []
  else
    HNode.leaf
      { id := (idAlloc d.oid c).1, parentID := none, depth := none, data := d }

/-- Embeds HGrid.prototype.addItem: builds the new node, resolves the
parent node (root when parentID is absent), attaches the node with store
sync, and returns the store together with the advanced counter; the final
lookup models the returned newItem. -/
def hgridAddItem (root : HNode) (s : Store) (d : ObjData) (c : Nat) :
    Option (Store × Nat) :=
  let node := newNodeFor d c
  (getNodeByID root s d.oparentID).bind fun parentNode =>
    (HNode.add parentNode node true s).bind fun r =>
      (getItemById r.2.2 node.info.id).map fun _ => (r.2.2, (idAlloc d.oid c).2)

/-- Embeds HGrid.prototype.addItems: adds the items one by one (the
surrounding batchUpdate only coalesces render notifications and has no
effect on the final store contents). -/
def hgridAddItems (root : HNode) (s : Store) (ds : List ObjData) (c : Nat) :
    Option (Store × Nat) :=
  match ds with
  | [] => some (s, c)
  | d :: rest =>
    match hgridAddItem root s d c with
    | some (s2, c2) => hgridAddItems root s2 rest c2
    | none => none

/-- Embeds onMoveRows of the draggable plugin: the moved rows are read by
row index, copied with the drop target's id as parentID and depth and _node
stripped, the originals are removed from the store by id, and the copies
are re-added through the normal add path. -/
def onMoveRows (root : HNode) (s : Store) (gid : NId) (rows : List Nat)
    (c : Nat) : Option (Store × Nat) :=
  let movedItems := rows.filterMap (fun r => s[r]?)
  let newItems := movedItems.map (fun it => itemToObjData it gid)
  let s1 := newItems.foldl (fun t ni => deleteItem t (idOfData ni)) s
  hgridAddItems root s1 newItems c

mutual
/-- Projection (kind, name, depth) of the flattened tree built from a single
well-formed hierarchy object attached at parent depth pd: its pre-order
flatten at level pd + 1. -/
theorem fromObject_proj (h : HObj) (pid : NId) (pd c : Nat) (hw : h.wf = true) :
    ((fromObject h pid pd c).1.toData).map itemProj =
      (specPreOrder h (pd + 1)).map (fun p => (p.1.kind, p.1.name, some p.2)) := by
  match h with
  | HObj.mk d cs =>
    unfold HObj.wf at hw
    simp only [Bool.and_eq_true, decide_eq_true_eq, Bool.or_eq_true] at hw
    obtain ⟨⟨hdep, hfile⟩, hlist⟩ := hw
    by_cases hk : d.kind = FILE
    · have hcs : cs = [] := by
        rcases hfile with hfile | hfile
        · exact absurd hk hfile
        · exact List.isEmpty_iff.mp hfile
      subst hcs
      rcases hI : idAlloc d.oid c with ⟨i, c1⟩
      simp [fromObject, hk, hI, HNode.toData, specPreOrder, specPreOrderList,
        itemProj, mkItem, HNode.info, hdep]
    · rcases hI : idAlloc d.oid c with ⟨i, c1⟩
      rcases hK : fromObjectList cs i (pd + 1) c1 with ⟨kids, c2⟩
      have ih := fromObjectList_proj cs i (pd + 1) c1 hlist
      rw [hK] at ih
      simp [fromObject, hk, hI, hK, HNode.toData, specPreOrder,
        itemProj, mkItem, HNode.info, hdep, ih]

/-- List version of fromObject_proj, children in input order. -/
theorem fromObjectList_proj (hs : List HObj) (pid : NId) (pd c : Nat)
    (hw : HObj.wfList hs = true) :
    (HNode.toDataList (fromObjectList hs pid pd c).1).map itemProj =
      (specPreOrderList hs (pd + 1)).map (fun p => (p.1.kind, p.1.name, some p.2)) := by
  match hs with
  | [] => simp [fromObjectList, HNode.toDataList, specPreOrderList]
  | h :: rest =>
    unfold HObj.wfList at hw
    simp only [Bool.and_eq_true] at hw
    obtain ⟨hw1, hw2⟩ := hw
    rcases hH : fromObject h pid pd c with ⟨g, c1⟩
    rcases hR : fromObjectList rest pid pd c1 with ⟨gs, c2⟩
    have ih1 := fromObject_proj h pid pd c hw1
    rw [hH] at ih1
    have ih2 := fromObjectList_proj rest pid pd c1 hw2
    rw [hR] at ih2
    simp [fromObjectList, hH, hR, HNode.toDataList, specPreOrderList, ih1, ih2]
end

/-- C1: for every well-formed nested hierarchy H, building the tree with
Tree.fromObject on the array and flattening with toData yields the item
projections in pre-order of H with the root omitted, children in input
order, and every item's depth equal to its nesting level (top level items
have depth 1). -/
theorem C1_fromObject_toData_preorder (hs : List HObj) (c : Nat)
    (hw : HObj.wfList hs = true) :
    ((fromObjectArray hs c).1.toData).map itemProj =
      (specPreOrderList hs 1).map (fun p => (p.1.kind, p.1.name, some p.2)) := by
  rcases hK : fromObjectList hs NId.root 0 c with ⟨kids, c1⟩
  have ih := fromObjectList_proj hs NId.root 0 c hw
  rw [hK] at ih
  simpa [fromObjectArray, hK, HNode.toData] using ih

/-- C1 witness: the end-to-end scenario hierarchy is well formed and the
theorem applies to it, producing docs at depth 1, a.txt at depth 2 and
b.txt at depth 1 in pre-order. -/

theorem C1_fromObject_toData_preorder_witness :
    HObj.wfList docsHierarchy = true ∧
      ((fromObjectArray docsHierarchy 0).1.toData).map itemProj =
        (specPreOrderList docsHierarchy 1).map (fun p => (p.1.kind, p.1.name, some p.2)) :=
  ⟨by decide, C1_fromObject_toData_preorder docsHierarchy 0 (by decide)⟩

mutual
/-- Collapse acts on the store as the pointwise map of collapseFun. -/
theorem collapse_eq_map (n : HNode) (b : Bool) (s : Store) :
    n.collapse b s = s.map (collapseFun n b) := by
  match n with
  | HNode.leaf info =>
    simp [HNode.collapse, updateItemById, collapseFun]
  | HNode.tree info cs =>
    rw [HNode.collapse]
    by_cases hb : b
    · rw [if_pos hb, collapseList_eq_map cs, updateItemById, List.map_map]
      simp [collapseFun, hb, Function.comp_def]
    · rw [if_neg hb, collapseList_eq_map cs, updateItemById, List.map_map]
      simp [collapseFun, hb, Function.comp_def]

/-- Collapsing a child list acts on the store as the pointwise map of
collapseFunList. -/
theorem collapseList_eq_map (ns : List HNode) (s : Store) :
    HNode.collapseList ns s = s.map (collapseFunList ns) := by
  match ns with
  | [] => simp [HNode.collapseList, collapseFunList]
  | g :: gs =>
    rw [HNode.collapseList, collapse_eq_map g true s, collapseList_eq_map gs,
      List.map_map]
    simp [collapseFunList, Function.comp_def]
end

mutual
/-- Cascading collapse preserves every item's id. -/
theorem collapseFun_id (n : HNode) (b : Bool) (it : Item) :
    (collapseFun n b it).id = it.id := by
  match n with
  | HNode.leaf info =>
    by_cases h : it.id = info.id <;> simp [collapseFun, h]
  | HNode.tree info cs =>
    rw [collapseFun]
    by_cases h : it.id = info.id
    · by_cases hb : b <;> simp [h, hb, collapseFunList_id cs]
    · simp [h, collapseFunList_id cs]

/-- List version of collapseFun_id. -/
theorem collapseFunList_id (ns : List HNode) (it : Item) :
    (collapseFunList ns it).id = it.id := by
  match ns with
  | [] => rfl
  | g :: gs => rw [collapseFunList, collapseFunList_id gs, collapseFun_id g]
end

mutual
/-- Items whose id lies outside the subtree are untouched by collapse. -/
theorem collapseFun_frame (n : HNode) (b : Bool) (it : Item)
    (h : it.id ∉ n.subtreeIds) : collapseFun n b it = it := by
  match n with
  | HNode.leaf info =>
    have : it.id ≠ info.id := by simpa [HNode.subtreeIds] using h
    simp [collapseFun, this]
  | HNode.tree info cs =>
    rw [HNode.subtreeIds] at h
    simp only [List.mem_cons, not_or] at h
    rw [collapseFun, if_neg h.1]
    exact collapseFunList_frame cs it h.2

/-- List version of collapseFun_frame. -/
theorem collapseFunList_frame (ns : List HNode) (it : Item)
    (h : it.id ∉ HNode.subtreeIdsList ns) : collapseFunList ns it = it := by
  match ns with
  | [] => rfl
  | g :: gs =>
    rw [HNode.subtreeIdsList] at h
    simp only [List.mem_append, not_or] at h
    rw [collapseFunList, collapseFun_frame g true it h.1]
    exact collapseFunList_frame gs it h.2
end

mutual
/-- Collapse with hideSelf never clears a set hidden flag. -/
theorem collapseFun_hidden_mono (n : HNode) (it : Item) (h : it.hidden = true) :
    (collapseFun n true it).hidden = true := by
  match n with
  | HNode.leaf info =>
    by_cases hid : it.id = info.id <;> simp [collapseFun, hid, h]
  | HNode.tree info cs =>
    rw [collapseFun]
    by_cases hid : it.id = info.id
    · exact collapseFunList_hidden_mono cs _ (by simp [hid])
    · simp only [if_neg hid]
      exact collapseFunList_hidden_mono cs it h

/-- List version of collapseFun_hidden_mono. -/
theorem collapseFunList_hidden_mono (ns : List HNode) (it : Item)
    (h : it.hidden = true) : (collapseFunList ns it).hidden = true := by
  match ns with
  | [] => exact h
  | g :: gs =>
    rw [collapseFunList]
    exact collapseFunList_hidden_mono gs _ (collapseFun_hidden_mono g it h)
end

mutual
/-- Every item whose id lies in the subtree ends hidden after a collapse
with hideSelf = true. -/
theorem collapseFun_hides (n : HNode) (it : Item) (h : it.id ∈ n.subtreeIds) :
    (collapseFun n true it).hidden = true := by
  match n with
  | HNode.leaf info =>
    have hid : it.id = info.id := by simpa [HNode.subtreeIds] using h
    simp [collapseFun, hid]
  | HNode.tree info cs =>
    rw [HNode.subtreeIds] at h
    rw [collapseFun]
    by_cases hid : it.id = info.id
    · exact collapseFunList_hidden_mono cs _ (by simp [hid])
    · simp only [if_neg hid]
      rcases List.mem_cons.mp h with h1 | h2
      · exact absurd h1 hid
      · exact collapseFunList_hides cs it h2

/-- List version of collapseFun_hides. -/
theorem collapseFunList_hides (ns : List HNode) (it : Item)
    (h : it.id ∈ HNode.subtreeIdsList ns) :
    (collapseFunList ns it).hidden = true := by
  match ns with
  | [] => simp [HNode.subtreeIdsList] at h
  | g :: gs =>
    rw [HNode.subtreeIdsList] at h
    rw [collapseFunList]
    rcases List.mem_append.mp h with h1 | h2
    · exact collapseFunList_hidden_mono gs _ (collapseFun_hides g it h1)
    · exact collapseFunList_hides gs (collapseFun g true it)
        (by rw [collapseFun_id g]; exact h2)
end

mutual
/-- Collapse with hideSelf = true never modifies the collapsed flag of an
item whose id is not the id of a Leaf of the subtree: the remembered
collapsed state of every folder strictly below the collapsed node is kept. -/
theorem collapseFun_keeps_collapsed (n : HNode) (it : Item)
    (h : it.id ∉ n.leafIds) : (collapseFun n true it).collapsed = it.collapsed := by
  match n with
  | HNode.leaf info =>
    have : it.id ≠ info.id := by simpa [HNode.leafIds] using h
    simp [collapseFun, this]
  | HNode.tree info cs =>
    rw [HNode.leafIds] at h
    rw [collapseFun]
    by_cases hid : it.id = info.id
    · simp only [if_pos hid, if_pos rfl]
      exact collapseFunList_keeps_collapsed cs _ h
    · simp only [if_neg hid]
      exact collapseFunList_keeps_collapsed cs it h

/-- List version of collapseFun_keeps_collapsed. -/
theorem collapseFunList_keeps_collapsed (ns : List HNode) (it : Item)
    (h : it.id ∉ HNode.leafIdsList ns) :
    (collapseFunList ns it).collapsed = it.collapsed := by
  match ns with
  | [] => rfl
  | g :: gs =>
    rw [HNode.leafIdsList] at h
    simp only [List.mem_append, not_or] at h
    rw [collapseFunList, collapseFunList_keeps_collapsed gs _ (by
      rw [collapseFun_id g]; exact h.2)]
    exact collapseFun_keeps_collapsed g it h.1
end

mutual
/-- Leaf ids and folder ids together enumerate the subtree ids. -/
theorem leaf_folder_perm (n : HNode) :
    List.Perm (n.leafIds ++ n.folderIds) n.subtreeIds := by
  match n with
  | HNode.leaf i => simp [HNode.leafIds, HNode.folderIds, HNode.subtreeIds]
  | HNode.tree i cs =>
    rw [HNode.leafIds, HNode.folderIds, HNode.subtreeIds]
    exact (List.perm_middle).trans ((leaf_folder_perm_list cs).cons i.id)

/-- List version of leaf_folder_perm. -/
theorem leaf_folder_perm_list (ns : List HNode) :
    List.Perm (HNode.leafIdsList ns ++ HNode.folderIdsList ns)
      (HNode.subtreeIdsList ns) := by
  match ns with
  | [] => simp [HNode.leafIdsList, HNode.folderIdsList, HNode.subtreeIdsList]
  | g :: gs =>
    rw [HNode.leafIdsList, HNode.folderIdsList, HNode.subtreeIdsList]
    have base : List.Perm
        ((g.leafIds ++ g.folderIds) ++ (HNode.leafIdsList gs ++ HNode.folderIdsList gs))
        (g.subtreeIds ++ HNode.subtreeIdsList gs) :=
      (leaf_folder_perm g).append (leaf_folder_perm_list gs)
    have swap : List.Perm
        ((g.leafIds ++ HNode.leafIdsList gs) ++ (g.folderIds ++ HNode.folderIdsList gs))
        ((g.leafIds ++ g.folderIds) ++ (HNode.leafIdsList gs ++ HNode.folderIdsList gs)) := by
      have h2 := (@List.perm_append_comm _ (HNode.leafIdsList gs) g.folderIds).append_right
        (HNode.folderIdsList gs)
      have h3 := h2.append_left g.leafIds
      simpa [List.append_assoc] using h3
    exact swap.trans base
end

/-- Folder ids of a forest are subtree ids. -/
theorem folderIdsList_subset (ns : List HNode) {x : NId}
    (h : x ∈ HNode.folderIdsList ns) : x ∈ HNode.subtreeIdsList ns :=
  (leaf_folder_perm_list ns).mem_iff.mp (List.mem_append.mpr (Or.inr h))

/-- In a forest whose ids are distinct, no folder id is also a leaf id. -/
theorem folder_not_leaf_list (ns : List HNode)
    (hnd : (HNode.subtreeIdsList ns).Nodup) {x : NId}
    (h : x ∈ HNode.folderIdsList ns) : x ∉ HNode.leafIdsList ns := by
  have hnd2 : (HNode.leafIdsList ns ++ HNode.folderIdsList ns).Nodup :=
    ((leaf_folder_perm_list ns).nodup_iff).mpr hnd
  have hdisj := (List.nodup_append.mp hnd2).2.2
  intro hx
  exact hdisj hx h

/-- C2: collapsing a materialized folder node with collapse(hideSelf) sets
the node's own item to hidden when hideSelf is true and to collapsed but
visible otherwise, marks every descendant's item hidden, and never alters
the remembered collapsed flag of a descendant folder. Stated per row of
the store, through the projections of the row at index i. -/
theorem C2_collapse_cascade (info : NInfo) (cs : List HNode) (hideSelf : Bool)
    (s : Store) (i : Nat) (nid : NId)
    (hid : (s[i]?).map Item.id = some nid)
    (hnd : (HNode.tree info cs).subtreeIds.Nodup) :
    (nid = info.id → hideSelf = true →
      (((HNode.tree info cs).collapse hideSelf s)[i]?).map Item.hidden = some true ∧
      (((HNode.tree info cs).collapse hideSelf s)[i]?).map Item.collapsed =
        (s[i]?).map Item.collapsed) ∧
    (nid = info.id → hideSelf = false →
      (((HNode.tree info cs).collapse hideSelf s)[i]?).map Item.hidden = some false ∧
      (((HNode.tree info cs).collapse hideSelf s)[i]?).map Item.collapsed = some true) ∧
    (nid ∈ HNode.subtreeIdsList cs →
      (((HNode.tree info cs).collapse hideSelf s)[i]?).map Item.hidden = some true) ∧
    (nid ∈ HNode.folderIdsList cs →
      (((HNode.tree info cs).collapse hideSelf s)[i]?).map Item.collapsed =
        (s[i]?).map Item.collapsed) := by
  rcases hsi : s[i]? with _ | it
  · rw [hsi] at hid; simp at hid
  · rw [hsi] at hid
    simp only [Option.map_some'] at hid
    have hit : it.id = nid := Option.some.inj hid
    have hmap : ((HNode.tree info cs).collapse hideSelf s)[i]? =
        some (collapseFun (HNode.tree info cs) hideSelf it) := by
      rw [collapse_eq_map, List.getElem?_map, hsi, Option.map_some']
    rw [HNode.subtreeIds] at hnd
    have hhead : info.id ∉ HNode.subtreeIdsList cs := (List.nodup_cons.mp hnd).1
    have htail : (HNode.subtreeIdsList cs).Nodup := (List.nodup_cons.mp hnd).2
    refine ⟨?_, ?_, ?_, ?_⟩
    · intro h1 h2
      subst h2
      have : collapseFun (HNode.tree info cs) true it = { it with hidden := true } := by
        rw [collapseFun, if_pos (hit.trans h1), if_pos rfl]
        exact collapseFunList_frame cs _ (by
          simpa [hit.trans h1] using hhead)
      rw [hmap, this]
      exact ⟨rfl, rfl⟩
    · intro h1 h2
      subst h2
      have : collapseFun (HNode.tree info cs) false it =
          { it with collapsed := true, hidden := false } := by
        rw [collapseFun, if_pos (hit.trans h1), if_neg Bool.false_ne_true]
        exact collapseFunList_frame cs _ (by
          simpa [hit.trans h1] using hhead)
      rw [hmap, this]
      exact ⟨rfl, rfl⟩
    · intro h1
      have hne : it.id ≠ info.id := by
        rw [hit]; intro he; rw [he] at h1; exact hhead h1
      rw [hmap]
      rw [collapseFun, if_neg hne]
      simpa using collapseFunList_hides cs it (by rw [hit]; exact h1)
    · intro h1
      have hsub : nid ∈ HNode.subtreeIdsList cs := folderIdsList_subset cs h1
      have hne : it.id ≠ info.id := by
        rw [hit]; intro he; rw [he] at hsub; exact hhead hsub
      rw [hmap, collapseFun, if_neg hne]
      simp only [Option.map_some']
      exact congrArg some (collapseFunList_keeps_collapsed cs it (by
        rw [hit]; exact folder_not_leaf_list cs htail h1))

/-- C2 witness: in the end-to-end scenario, collapsing the docs folder with
hideSelf = false hides the a.txt row. -/
theorem C2_collapse_cascade_witness :
    ((docsStore[1]?).map Item.id = some (NId.node 1) ∧
      (HNode.tree docsInfo docsChildren).subtreeIds.Nodup ∧
      NId.node 1 ∈ HNode.subtreeIdsList docsChildren) ∧
    (((HNode.tree docsInfo docsChildren).collapse false docsStore)[1]?).map
      Item.hidden = some true :=
  ⟨⟨by decide, by decide, by decide⟩,
    (C2_collapse_cascade docsInfo docsChildren false docsStore 1 (NId.node 1)
      (by decide) (by decide)).2.2.1 (by decide)⟩

/-- Updating one id leaves rows with another id unchanged. -/
theorem update_at_ne (s : Store) (j : NId) (f : Item → Item) (i : Nat) (it : Item)
    (hsi : s[i]? = some it) (hne : it.id ≠ j) :
    (updateItemById s j f)[i]? = some it := by
  rw [updateItemById, List.getElem?_map, hsi, Option.map_some', if_neg hne]

/-- Updating an id rewrites the row carrying it at its index. -/
theorem update_at_eq (s : Store) (j : NId) (f : Item → Item) (i : Nat) (it : Item)
    (hsi : s[i]? = some it) (heq : it.id = j) :
    (updateItemById s j f)[i]? = some (f it) := by
  rw [updateItemById, List.getElem?_map, hsi, Option.map_some', if_pos heq]

/-- Updating one id does not change the lookup of another id, provided the
update preserves ids. -/
theorem getItemById_update_ne (s : Store) (j x : NId) (f : Item → Item)
    (hf : ∀ it, (f it).id = it.id) (hne : x ≠ j) :
    getItemById (updateItemById s j f) x = getItemById s x := by
  induction s with
  | nil => rfl
  | cons a t ih =>
    by_cases haj : a.id = j
    · have hax : a.id ≠ x := by rw [haj]; exact fun he => hne he.symm
      have hfax : (f a).id ≠ x := by rw [hf a]; exact hax
      rw [updateItemById, List.map_cons, if_pos haj, getItemById,
        List.find?_cons_of_neg _ (by simpa using hfax), getItemById,
        List.find?_cons_of_neg _ (by simpa using hax)]
      exact ih
    · by_cases hax : a.id = x
      · rw [updateItemById, List.map_cons, if_neg haj, getItemById,
          List.find?_cons_of_pos _ (by simpa using hax), getItemById,
          List.find?_cons_of_pos _ (by simpa using hax)]
      · rw [updateItemById, List.map_cons, if_neg haj, getItemById,
          List.find?_cons_of_neg _ (by simpa using hax), getItemById,
          List.find?_cons_of_neg _ (by simpa using hax)]
        exact ih

/-- Lookup of the updated id returns the updated row, provided the update
preserves ids. -/
theorem getItemById_update_eq (s : Store) (x : NId) (f : Item → Item)
    (hf : ∀ it, (f it).id = it.id) :
    getItemById (updateItemById s x f) x = (getItemById s x).map f := by
  induction s with
  | nil => rfl
  | cons a t ih =>
    by_cases hax : a.id = x
    · rw [updateItemById, List.map_cons, if_pos hax, getItemById,
        List.find?_cons_of_pos _ (by simp [hf a, hax]), getItemById,
        List.find?_cons_of_pos _ (by simpa using hax), Option.map_some']
    · rw [updateItemById, List.map_cons, if_neg hax, getItemById,
        List.find?_cons_of_neg _ (by simpa using hax), getItemById,
        List.find?_cons_of_neg _ (by simpa using hax)]
      exact ih

mutual
/-- Expanding a node leaves every row whose id lies outside the subtree
unchanged. -/
theorem expand_frame (n : HNode) (nf : Bool) (s : Store) (i : Nat) (it : Item)
    (hsi : s[i]? = some it) (h : it.id ∉ n.subtreeIds) :
    (n.expand nf s)[i]? = some it := by
  match n with
  | HNode.leaf info =>
    have hne : it.id ≠ info.id := by simpa [HNode.subtreeIds] using h
    rw [HNode.expand]
    exact update_at_ne s info.id _ i it hsi hne
  | HNode.tree info cs =>
    rw [HNode.subtreeIds] at h
    simp only [List.mem_cons, not_or] at h
    rw [HNode.expand]
    have h1 : (if nf then updateItemById s info.id (fun a => { a with hidden := false })
        else updateItemById s info.id
          (fun a => { a with collapsed := false, hidden := false }))[i]? = some it := by
      by_cases hb : nf <;>
        simp only [hb, if_true, if_false] <;>
        exact update_at_ne s info.id _ i it hsi h.1
    by_cases hstop : stopAt (if nf then updateItemById s info.id
        (fun a => { a with hidden := false })
      else updateItemById s info.id
        (fun a => { a with collapsed := false, hidden := false })) info.id
    · rw [if_pos hstop]; exact h1
    · rw [if_neg hstop]
      exact expandList_frame cs _ i it h1 h.2

/-- List version of expand_frame. -/
theorem expandList_frame (ns : List HNode) (s : Store) (i : Nat) (it : Item)
    (hsi : s[i]? = some it) (h : it.id ∉ HNode.subtreeIdsList ns) :
    (HNode.expandList ns s)[i]? = some it := by
  match ns with
  | [] => rw [HNode.expandList]; exact hsi
  | g :: gs =>
    rw [HNode.subtreeIdsList] at h
    simp only [List.mem_append, not_or] at h
    rw [HNode.expandList]
    exact expandList_frame gs _ i it (expand_frame g true s i it hsi h.1) h.2
end

mutual
/-- Expanding a node does not change the lookup of an id outside the
subtree. -/
theorem expand_getItemById (n : HNode) (nf : Bool) (s : Store) (x : NId)
    (h : x ∉ n.subtreeIds) :
    getItemById (n.expand nf s) x = getItemById s x := by
  match n with
  | HNode.leaf info =>
    have hne : x ≠ info.id := by simpa [HNode.subtreeIds] using h
    rw [HNode.expand]
    exact getItemById_update_ne s info.id x _ (fun a => rfl) hne
  | HNode.tree info cs =>
    rw [HNode.subtreeIds] at h
    simp only [List.mem_cons, not_or] at h
    rw [HNode.expand]
    have h1 : getItemById (if nf then updateItemById s info.id
          (fun a => { a with hidden := false })
        else updateItemById s info.id
          (fun a => { a with collapsed := false, hidden := false })) x =
        getItemById s x := by
      by_cases hb : nf <;>
        simp only [hb, if_true, if_false] <;>
        exact getItemById_update_ne s info.id x _ (fun a => rfl) h.1
    by_cases hstop : stopAt (if nf then updateItemById s info.id
        (fun a => { a with hidden := false })
      else updateItemById s info.id
        (fun a => { a with collapsed := false, hidden := false })) info.id
    · rw [if_pos hstop]; exact h1
    · rw [if_neg hstop]
      exact (expandList_getItemById cs _ x h.2).trans h1

/-- List version of expand_getItemById. -/
theorem expandList_getItemById (ns : List HNode) (s : Store) (x : NId)
    (h : x ∉ HNode.subtreeIdsList ns) :
    getItemById (HNode.expandList ns s) x = getItemById s x := by
  match ns with
  | [] => rw [HNode.expandList]
  | g :: gs =>
    rw [HNode.subtreeIdsList] at h
    simp only [List.mem_append, not_or] at h
    rw [HNode.expandList]
    exact (expandList_getItemById gs _ x h.2).trans
      (expand_getItemById g true s x h.1)
end

/-- Every node's own id belongs to its subtree ids. -/
theorem info_id_mem_subtreeIds (n : HNode) : n.info.id ∈ n.subtreeIds := by
  cases n <;> simp [HNode.subtreeIds, HNode.info]

/-- Subtree ids of a forest member are subtree ids of the forest. -/
theorem mem_subtreeIdsList_of_mem (ns : List HNode) (n : HNode) (hn : n ∈ ns)
    (x : NId) (hx : x ∈ n.subtreeIds) : x ∈ HNode.subtreeIdsList ns := by
  induction ns with
  | nil => cases hn
  | cons g gs ih =>
    rw [HNode.subtreeIdsList]
    rcases List.mem_cons.mp hn with h | h
    · subst h; exact List.mem_append.mpr (Or.inl hx)
    · exact List.mem_append.mpr (Or.inr (ih h))

/-- Head ids of a forest are subtree ids of the forest. -/
theorem headIds_subset (ns : List HNode) (x : NId) (hx : x ∈ headIds ns) :
    x ∈ HNode.subtreeIdsList ns := by
  rcases List.mem_map.mp hx with ⟨c, hc, he⟩
  exact mem_subtreeIdsList_of_mem ns c hc x (he ▸ info_id_mem_subtreeIds c)

/-- Expanding a node as a descendant call reveals the node's own row. -/
theorem expand_own_hidden (c : HNode) (s : Store) (i : Nat) (it : Item)
    (hnd : c.subtreeIds.Nodup) (hsi : s[i]? = some it) (hid : it.id = c.info.id) :
    ∃ it2, (c.expand true s)[i]? = some it2 ∧ it2.id = it.id ∧ it2.hidden = false := by
  match c with
  | HNode.leaf info =>
    rw [HNode.expand]
    exact ⟨{ it with collapsed := false, hidden := false },
      update_at_eq s info.id _ i it hsi (by simpa [HNode.info] using hid), rfl, rfl⟩
  | HNode.tree info cs =>
    rw [HNode.info] at hid
    rw [HNode.subtreeIds] at hnd
    have hhead : info.id ∉ HNode.subtreeIdsList cs := (List.nodup_cons.mp hnd).1
    rw [HNode.expand]
    simp only [if_true]
    have h1 : (updateItemById s info.id (fun a => { a with hidden := false }))[i]? =
        some { it with hidden := false } :=
      update_at_eq s info.id _ i it hsi hid
    by_cases hstop : stopAt (updateItemById s info.id
        (fun a => { a with hidden := false })) info.id
    · rw [if_pos hstop]
      exact ⟨{ it with hidden := false }, h1, rfl, rfl⟩
    · rw [if_neg hstop]
      exact ⟨{ it with hidden := false },
        expandList_frame cs _ i _ h1 (by simpa [hid] using hhead), rfl, rfl⟩

mutual
/-- Descendant expand calls never change the collapsed flag of a row whose
id is not the id of a Leaf of the subtree. -/
theorem expand_keeps_collapsed (n : HNode) (s : Store) (i : Nat) (it : Item)
    (hsi : s[i]? = some it) (h : it.id ∉ n.leafIds) :
    ∃ it2, (n.expand true s)[i]? = some it2 ∧ it2.id = it.id ∧
      it2.collapsed = it.collapsed := by
  match n with
  | HNode.leaf info =>
    have hne : it.id ≠ info.id := by simpa [HNode.leafIds] using h
    rw [HNode.expand]
    exact ⟨it, update_at_ne s info.id _ i it hsi hne, rfl, rfl⟩
  | HNode.tree info cs =>
    rw [HNode.leafIds] at h
    rw [HNode.expand]
    simp only [if_true]
    have h1 : ∃ it1, (updateItemById s info.id
        (fun a => { a with hidden := false }))[i]? = some it1 ∧
        it1.id = it.id ∧ it1.collapsed = it.collapsed := by
      by_cases hax : it.id = info.id
      · exact ⟨{ it with hidden := false },
          update_at_eq s info.id _ i it hsi hax, rfl, rfl⟩
      · exact ⟨it, update_at_ne s info.id _ i it hsi hax, rfl, rfl⟩
    rcases h1 with ⟨it1, h1, hid1, hc1⟩
    by_cases hstop : stopAt (updateItemById s info.id
        (fun a => { a with hidden := false })) info.id
    · rw [if_pos hstop]
      exact ⟨it1, h1, hid1, hc1⟩
    · rw [if_neg hstop]
      rcases expandList_keeps_collapsed cs _ i it1 h1 (by rw [hid1]; exact h) with
        ⟨it2, h2, hid2, hc2⟩
      exact ⟨it2, h2, hid2.trans hid1, hc2.trans hc1⟩

/-- List version of expand_keeps_collapsed. -/
theorem expandList_keeps_collapsed (ns : List HNode) (s : Store) (i : Nat)
    (it : Item) (hsi : s[i]? = some it) (h : it.id ∉ HNode.leafIdsList ns) :
    ∃ it2, (HNode.expandList ns s)[i]? = some it2 ∧ it2.id = it.id ∧
      it2.collapsed = it.collapsed := by
  match ns with
  | [] => rw [HNode.expandList]; exact ⟨it, hsi, rfl, rfl⟩
  | g :: gs =>
    rw [HNode.leafIdsList] at h
    simp only [List.mem_append, not_or] at h
    rw [HNode.expandList]
    rcases expand_keeps_collapsed g _ i it hsi h.1 with ⟨it1, h1, hid1, hc1⟩
    rcases expandList_keeps_collapsed gs _ i it1 h1 (by rw [hid1]; exact h.2) with
      ⟨it2, h2, hid2, hc2⟩
    exact ⟨it2, h2, hid2.trans hid1, hc2.trans hc1⟩
end

/-- Expanding a forest reveals the row of every root of the forest. -/
theorem expandList_child_hidden (ns : List HNode) (s : Store) (i : Nat) (it : Item)
    (hnd : (HNode.subtreeIdsList ns).Nodup) (hsi : s[i]? = some it)
    (h : it.id ∈ headIds ns) :
    ∃ it2, (HNode.expandList ns s)[i]? = some it2 ∧ it2.id = it.id ∧
      it2.hidden = false := by
  induction ns generalizing s it with
  | nil => simp [headIds] at h
  | cons g gs ih =>
    rw [HNode.subtreeIdsList] at hnd
    have hdisj := (List.nodup_append.mp hnd).2.2
    rw [HNode.expandList]
    rcases List.mem_cons.mp (by simpa [headIds] using h :
        it.id ∈ g.info.id :: headIds gs) with hh | hh
    · rcases expand_own_hidden g s i it (List.nodup_append.mp hnd).1 hsi hh with
        ⟨it2, h2, hid2, hh2⟩
      refine ⟨it2, ?_, hid2, hh2⟩
      exact expandList_frame gs _ i it2 h2 (by
        rw [hid2, hh]
        exact fun hx => hdisj (info_id_mem_subtreeIds g) hx)
    · have hmem : it.id ∈ HNode.subtreeIdsList gs := headIds_subset gs it.id hh
      have hfr : (g.expand true s)[i]? = some it :=
        expand_frame g true s i it hsi (fun hx => hdisj hx hmem)
      exact ih _ _ (List.nodup_append.mp hnd).2.1 hfr hh

/-- Expanding a forest resets both flags of the row of a Leaf root of the
forest. -/
theorem expandList_leaf_child (ns : List HNode) (s : Store) (i : Nat) (it : Item)
    (linfo : NInfo) (hnd : (HNode.subtreeIdsList ns).Nodup)
    (hmem : HNode.leaf linfo ∈ ns) (hsi : s[i]? = some it) (hid : it.id = linfo.id) :
    (HNode.expandList ns s)[i]? = some { it with collapsed := false, hidden := false } := by
  induction ns generalizing s it with
  | nil => cases hmem
  | cons g gs ih =>
    rw [HNode.subtreeIdsList] at hnd
    have hdisj := (List.nodup_append.mp hnd).2.2
    rw [HNode.expandList]
    rcases List.mem_cons.mp hmem with hh | hh
    · subst hh
      rw [HNode.expand]
      have h1 := update_at_eq s linfo.id
        (fun a => { a with collapsed := false, hidden := false }) i it hsi hid
      exact expandList_frame gs _ i _ h1 (by
        intro hx
        exact hdisj (by simp [HNode.subtreeIds, hid.symm]) hx)
    · have hin : it.id ∈ HNode.subtreeIdsList gs := by
        rw [hid]
        exact mem_subtreeIdsList_of_mem gs _ hh linfo.id
          (by simp [HNode.subtreeIds])
      have hfr : (g.expand true s)[i]? = some it :=
        expand_frame g true s i it hsi (fun hx => hdisj hx hin)
      exact ih _ _ (List.nodup_append.mp hnd).2.1 hh hfr hid

/-- Expanding a forest leaves every row below a still collapsed folder root
of the forest completely unchanged: the recursion stops at that folder. -/
theorem expandList_stopped (ns : List HNode) (s : Store) (i : Nat) (it : Item)
    (dinfo : NInfo) (ds : List HNode) (hnd : (HNode.subtreeIdsList ns).Nodup)
    (hmem : HNode.tree dinfo ds ∈ ns)
    (hcol : (getItemById s dinfo.id).map Item.collapsed = some true)
    (hsi : s[i]? = some it) (hin : it.id ∈ HNode.subtreeIdsList ds) :
    (HNode.expandList ns s)[i]? = some it := by
  induction ns generalizing s it with
  | nil => cases hmem
  | cons g gs ih =>
    rw [HNode.subtreeIdsList] at hnd
    have hdisj := (List.nodup_append.mp hnd).2.2
    rw [HNode.expandList]
    rcases List.mem_cons.mp hmem with hh | hh
    · subst hh
      have hndD : (HNode.subtreeIds (HNode.tree dinfo ds)).Nodup :=
        (List.nodup_append.mp hnd).1
      rw [HNode.subtreeIds] at hndD
      have hDhead : dinfo.id ∉ HNode.subtreeIdsList ds := (List.nodup_cons.mp hndD).1
      rcases hG : getItemById s dinfo.id with _ | itD
      · rw [hG] at hcol; simp at hcol
      · rw [hG, Option.map_some'] at hcol
        have hcolD : itD.collapsed = true := Option.some.inj hcol
        have hstop : stopAt (updateItemById s dinfo.id
            (fun a => { a with hidden := false })) dinfo.id = true := by
          rw [stopAt, getItemById_update_eq s dinfo.id
            (fun a => { a with hidden := false }) (fun a => rfl), hG,
            Option.map_some']
          exact hcolD
        have hexp : (HNode.tree dinfo ds).expand true s =
            updateItemById s dinfo.id (fun a => { a with hidden := false }) := by
          rw [HNode.expand]
          simp only [if_true]
          rw [if_pos hstop]
        rw [hexp]
        have h1 : (updateItemById s dinfo.id
            (fun a => { a with hidden := false }))[i]? = some it :=
          update_at_ne s dinfo.id _ i it hsi (by
            intro he; rw [he] at hin; exact hDhead hin)
        exact expandList_frame gs _ i it h1 (by
          intro hx
          exact hdisj (by rw [HNode.subtreeIds]; exact List.mem_cons_of_mem _ hin) hx)
    · have hinGs : it.id ∈ HNode.subtreeIdsList gs :=
        mem_subtreeIdsList_of_mem gs _ hh it.id
          (by rw [HNode.subtreeIds]; exact List.mem_cons_of_mem _ hin)
      have hDinGs : dinfo.id ∈ HNode.subtreeIdsList gs :=
        mem_subtreeIdsList_of_mem gs _ hh dinfo.id
          (by rw [HNode.subtreeIds]; exact List.mem_cons_self _ _)
      have hfr : (g.expand true s)[i]? = some it :=
        expand_frame g true s i it hsi (fun hx => hdisj hx hinGs)
      have hlook : getItemById (g.expand true s) dinfo.id = getItemById s dinfo.id :=
        expand_getItemById g true s dinfo.id (fun hx => hdisj hx hDinGs)
      exact ih _ _ (List.nodup_append.mp hnd).2.1 hh (by rw [hlook]; exact hcol) hfr hin

mutual
/-- Subtree ids of a node of a subtree are subtree ids of the whole
subtree. -/
theorem subtreeIds_of_allNodes (n d : HNode) (hd : d ∈ n.allNodes)
    (x : NId) (hx : x ∈ d.subtreeIds) : x ∈ n.subtreeIds := by
  match n with
  | HNode.leaf i =>
    rw [HNode.allNodes] at hd
    have he : d = HNode.leaf i := List.mem_singleton.mp hd
    rw [he] at hx
    exact hx
  | HNode.tree i cs =>
    rw [HNode.allNodes] at hd
    rcases List.mem_cons.mp hd with he | hh
    · rw [he] at hx; exact hx
    · rw [HNode.subtreeIds]
      exact List.mem_cons_of_mem _ (subtreeIds_of_allNodesList cs d hh x hx)

/-- Subtree ids of a node of a forest are subtree ids of the forest. -/
theorem subtreeIds_of_allNodesList (ns : List HNode) (d : HNode)
    (hd : d ∈ HNode.allNodesList ns) (x : NId) (hx : x ∈ d.subtreeIds) :
    x ∈ HNode.subtreeIdsList ns := by
  match ns with
  | [] => rw [HNode.allNodesList] at hd; cases hd
  | g :: gs =>
    rw [HNode.allNodesList] at hd
    rw [HNode.subtreeIdsList]
    rcases List.mem_append.mp hd with hh | hh
    · exact List.mem_append.mpr (Or.inl (subtreeIds_of_allNodes g d hh x hx))
    · exact List.mem_append.mpr
        (Or.inr (subtreeIds_of_allNodesList gs d hh x hx))
end

/-- A descendant call of expand on a folder whose own item is still marked
collapsed only clears the folder's _hidden flag and recurses no further, so
every row strictly below it is unchanged. -/
theorem expand_true_stopped_self (dinfo : NInfo) (ds : List HNode) (s : Store)
    (i : Nat) (it : Item) (hnd : (HNode.tree dinfo ds).subtreeIds.Nodup)
    (hcol : (getItemById s dinfo.id).map Item.collapsed = some true)
    (hsi : s[i]? = some it) (hin : it.id ∈ HNode.subtreeIdsList ds) :
    ((HNode.tree dinfo ds).expand true s)[i]? = some it := by
  rw [HNode.subtreeIds] at hnd
  have hDhead : dinfo.id ∉ HNode.subtreeIdsList ds := (List.nodup_cons.mp hnd).1
  rcases hG : getItemById s dinfo.id with _ | itD
  · rw [hG] at hcol; simp at hcol
  · rw [hG, Option.map_some'] at hcol
    have hcolD : itD.collapsed = true := Option.some.inj hcol
    have hstop : stopAt (updateItemById s dinfo.id
        (fun a => { a with hidden := false })) dinfo.id = true := by
      rw [stopAt, getItemById_update_eq s dinfo.id
        (fun a => { a with hidden := false }) (fun a => rfl), hG,
        Option.map_some']
      exact hcolD
    have hexp : (HNode.tree dinfo ds).expand true s =
        updateItemById s dinfo.id (fun a => { a with hidden := false }) := by
      rw [HNode.expand]
      simp only [if_true]
      rw [if_pos hstop]
    rw [hexp]
    exact update_at_ne s dinfo.id _ i it hsi (by
      intro he; rw [he] at hin; exact hDhead hin)

mutual
/-- Expanding a node with a descendant call leaves every row below a still
collapsed folder anywhere in the node's subtree completely unchanged: the
recursion stops at that folder. -/
theorem expand_stopped_deep (n : HNode) (s : Store) (i : Nat) (it : Item)
    (dinfo : NInfo) (ds : List HNode) (hnd : n.subtreeIds.Nodup)
    (hmem : HNode.tree dinfo ds ∈ n.allNodes)
    (hcol : (getItemById s dinfo.id).map Item.collapsed = some true)
    (hsi : s[i]? = some it) (hin : it.id ∈ HNode.subtreeIdsList ds) :
    (n.expand true s)[i]? = some it := by
  match n with
  | HNode.leaf info =>
    rw [HNode.allNodes] at hmem
    exact HNode.noConfusion (List.mem_singleton.mp hmem)
  | HNode.tree info cs =>
    rw [HNode.allNodes] at hmem
    rcases List.mem_cons.mp hmem with he | hh
    · have h1 : dinfo = info := by injection he
      have h2 : ds = cs := by injection he
      subst h1; subst h2
      exact expand_true_stopped_self dinfo ds s i it hnd hcol hsi hin
    · rw [HNode.subtreeIds] at hnd
      have hhead : info.id ∉ HNode.subtreeIdsList cs := (List.nodup_cons.mp hnd).1
      have htail : (HNode.subtreeIdsList cs).Nodup := (List.nodup_cons.mp hnd).2
      have hinCs : it.id ∈ HNode.subtreeIdsList cs :=
        subtreeIds_of_allNodesList cs _ hh it.id
          (by rw [HNode.subtreeIds]; exact List.mem_cons_of_mem _ hin)
      have hDinCs : dinfo.id ∈ HNode.subtreeIdsList cs :=
        subtreeIds_of_allNodesList cs _ hh dinfo.id
          (by rw [HNode.subtreeIds]; exact List.mem_cons_self _ _)
      have hne : it.id ≠ info.id := by
        intro he2; rw [he2] at hinCs; exact hhead hinCs
      have hDne : dinfo.id ≠ info.id := by
        intro he2; rw [he2] at hDinCs; exact hhead hDinCs
      rw [HNode.expand]
      simp only [if_true]
      have h1 : (updateItemById s info.id
          (fun a => { a with hidden := false }))[i]? = some it :=
        update_at_ne s info.id _ i it hsi hne
      have hcol1 : (getItemById (updateItemById s info.id
          (fun a => { a with hidden := false })) dinfo.id).map Item.collapsed =
          some true := by
        rw [getItemById_update_ne s info.id dinfo.id
          (fun a => { a with hidden := false }) (fun a => rfl) hDne]
        exact hcol
      by_cases hstop : stopAt (updateItemById s info.id
          (fun a => { a with hidden := false })) info.id
      · rw [if_pos hstop]; exact h1
      · rw [if_neg hstop]
        exact expandList_stopped_deep cs _ i it dinfo ds htail hh hcol1 h1 hin

/-- Expanding a forest leaves every row below a still collapsed folder
anywhere in the forest completely unchanged. -/
theorem expandList_stopped_deep (ns : List HNode) (s : Store) (i : Nat)
    (it : Item) (dinfo : NInfo) (ds : List HNode)
    (hnd : (HNode.subtreeIdsList ns).Nodup)
    (hmem : HNode.tree dinfo ds ∈ HNode.allNodesList ns)
    (hcol : (getItemById s dinfo.id).map Item.collapsed = some true)
    (hsi : s[i]? = some it) (hin : it.id ∈ HNode.subtreeIdsList ds) :
    (HNode.expandList ns s)[i]? = some it := by
  match ns with
  | [] => rw [HNode.allNodesList] at hmem; cases hmem
  | g :: gs =>
    rw [HNode.allNodesList] at hmem
    rw [HNode.subtreeIdsList] at hnd
    have hdisj := (List.nodup_append.mp hnd).2.2
    rw [HNode.expandList]
    rcases List.mem_append.mp hmem with hh | hh
    · have hinG : it.id ∈ HNode.subtreeIds g :=
        subtreeIds_of_allNodes g _ hh it.id
          (by rw [HNode.subtreeIds]; exact List.mem_cons_of_mem _ hin)
      have h1 : (g.expand true s)[i]? = some it :=
        expand_stopped_deep g s i it dinfo ds (List.nodup_append.mp hnd).1
          hh hcol hsi hin
      exact expandList_frame gs _ i it h1 (fun hx => hdisj hinG hx)
    · have hinGs : it.id ∈ HNode.subtreeIdsList gs :=
        subtreeIds_of_allNodesList gs _ hh it.id
          (by rw [HNode.subtreeIds]; exact List.mem_cons_of_mem _ hin)
      have hDinGs : dinfo.id ∈ HNode.subtreeIdsList gs :=
        subtreeIds_of_allNodesList gs _ hh dinfo.id
          (by rw [HNode.subtreeIds]; exact List.mem_cons_self _ _)
      have hfr : (g.expand true s)[i]? = some it :=
        expand_frame g true s i it hsi (fun hx => hdisj hx hinGs)
      have hlook : getItemById (g.expand true s) dinfo.id =
          getItemById s dinfo.id :=
        expand_getItemById g true s dinfo.id (fun hx => hdisj hx hDinGs)
      exact expandList_stopped_deep gs _ i it dinfo ds
        (List.nodup_append.mp hnd).2.1 hh (by rw [hlook]; exact hcol) hfr hin
end

/-- C3 counterexample: expanding the docs folder does touch the _collapsed
flag of its leaf child a.txt on the descendant call: the flag is true before
the expand and false after it, refuting the claim that descendant calls
never touch a child's _collapsed flag. -/
theorem C3_counterexample :
    ((docsStoreACollapsed[1]?).map Item.collapsed = some true) ∧
    ((((HNode.tree docsInfo docsChildren).expand false
        docsStoreACollapsed)[1]?).map Item.collapsed = some false) := by
  constructor
  · rfl
  · rfl

/-- C3 amended: expanding a materialized folder node clears its own
_collapsed and _hidden flags; the recursion clears _hidden on every direct
child, resets both flags of a direct Leaf child, never changes the
_collapsed flag of any folder strictly below the node, and stops descending
below any descendant folder whose item is still marked collapsed, leaving
every row of that folder's subtree untouched. -/
theorem C3_expand_amended (info : NInfo) (cs : List HNode) (s : Store)
    (hnd : (HNode.tree info cs).subtreeIds.Nodup)
    (hmat : (getItemById s info.id).isSome = true) :
    (∀ (i : Nat) (it : Item), s[i]? = some it → it.id = info.id →
      ((HNode.tree info cs).expand false s)[i]? =
        some { it with collapsed := false, hidden := false }) ∧
    (∀ (i : Nat) (it : Item), s[i]? = some it → it.id ∈ headIds cs →
      (((HNode.tree info cs).expand false s)[i]?).map Item.hidden = some false) ∧
    (∀ (i : Nat) (it : Item), s[i]? = some it → it.id ∈ HNode.folderIdsList cs →
      (((HNode.tree info cs).expand false s)[i]?).map Item.collapsed =
        some it.collapsed) ∧
    (∀ (i : Nat) (it : Item) (dinfo : NInfo) (ds : List HNode),
      HNode.tree dinfo ds ∈ HNode.allNodesList cs →
      (getItemById s dinfo.id).map Item.collapsed = some true →
      s[i]? = some it → it.id ∈ HNode.subtreeIdsList ds →
      ((HNode.tree info cs).expand false s)[i]? = some it) ∧
    (∀ (i : Nat) (it : Item) (linfo : NInfo), HNode.leaf linfo ∈ cs → s[i]? = some it → it.id = linfo.id →
      ((HNode.tree info cs).expand false s)[i]? =
        some { it with collapsed := false, hidden := false }) := by
  rw [HNode.subtreeIds] at hnd
  have hhead : info.id ∉ HNode.subtreeIdsList cs := (List.nodup_cons.mp hnd).1
  have htail : (HNode.subtreeIdsList cs).Nodup := (List.nodup_cons.mp hnd).2
  rcases hG : getItemById s info.id with _ | it0
  · rw [hG] at hmat; simp at hmat
  have hstop : stopAt (updateItemById s info.id
      (fun a => { a with collapsed := false, hidden := false })) info.id = false := by
    rw [stopAt, getItemById_update_eq s info.id
      (fun a => { a with collapsed := false, hidden := false }) (fun a => rfl), hG,
      Option.map_some']
  have hexp : (HNode.tree info cs).expand false s =
      HNode.expandList cs (updateItemById s info.id
        (fun a => { a with collapsed := false, hidden := false })) := by
    rw [HNode.expand]
    simp only [Bool.false_eq_true, if_false]
    rw [if_neg (by rw [hstop]; exact Bool.false_ne_true)]
  refine ⟨?_, ?_, ?_, ?_, ?_⟩
  · intro i it hsi hid
    rw [hexp]
    exact expandList_frame cs _ i _
      (update_at_eq s info.id _ i it hsi hid)
      (by simpa [hid] using hhead)
  · intro i it hsi hmem
    have hne : it.id ≠ info.id := by
      intro he; rw [he] at hmem; exact hhead (headIds_subset cs info.id hmem)
    rw [hexp]
    rcases expandList_child_hidden cs _ i it htail
      (update_at_ne s info.id _ i it hsi hne) hmem with ⟨it2, h2, _, hh2⟩
    rw [h2, Option.map_some', hh2]
  · intro i it hsi hmem
    have hne : it.id ≠ info.id := by
      intro he; rw [he] at hmem
      exact hhead (folderIdsList_subset cs hmem)
    rw [hexp]
    rcases expandList_keeps_collapsed cs _ i it
      (update_at_ne s info.id _ i it hsi hne)
      (by exact fun hx => folder_not_leaf_list cs htail hmem hx) with
      ⟨it2, h2, _, hc2⟩
    rw [h2, Option.map_some', hc2]
  · intro i it dinfo ds hmemD hcol hsi hin
    have hDid : dinfo.id ∈ HNode.subtreeIdsList cs :=
      subtreeIds_of_allNodesList cs _ hmemD dinfo.id
        (by rw [HNode.subtreeIds]; exact List.mem_cons_self _ _)
    have hne : it.id ≠ info.id := by
      intro he; rw [he] at hin
      exact hhead (subtreeIds_of_allNodesList cs _ hmemD info.id
        (by rw [HNode.subtreeIds]; exact List.mem_cons_of_mem _ hin))
    have hDne : dinfo.id ≠ info.id := by
      intro he; rw [he] at hDid; exact hhead hDid
    rw [hexp]
    exact expandList_stopped_deep cs _ i it dinfo ds htail hmemD
      (by rw [getItemById_update_ne s info.id dinfo.id
            (fun a => { a with collapsed := false, hidden := false })
            (fun a => rfl) hDne]
          exact hcol)
      (update_at_ne s info.id _ i it hsi hne) hin
  · intro i it linfo hmemL hsi hid
    have hne : it.id ≠ info.id := by
      intro he
      rw [he] at hid
      exact hhead (mem_subtreeIdsList_of_mem cs _ hmemL info.id
        (by rw [HNode.subtreeIds]; exact hid ▸ List.mem_singleton_self _))
    rw [hexp]
    exact expandList_leaf_child cs _ i it linfo htail hmemL
      (update_at_ne s info.id _ i it hsi hne) hid

/-- C3 witness: in the scenario store with a.txt marked collapsed and
hidden, expanding the docs folder resets both flags of the a.txt row. -/
theorem C3_expand_amended_witness :
    ((HNode.tree docsInfo docsChildren).subtreeIds.Nodup ∧
      (getItemById docsStoreACollapsed (NId.node 0)).isSome = true ∧
      docsStoreACollapsed[1]? = some aTxtRow) ∧
    (((HNode.tree docsInfo docsChildren).expand false docsStoreACollapsed)[1]? =
      some { aTxtRow with collapsed := false, hidden := false }) :=
  ⟨⟨by decide, by decide, rfl⟩,
    (C3_expand_amended docsInfo docsChildren docsStoreACollapsed
        (by decide) (by decide)).2.2.2.2 1 aTxtRow aTxtInfo
      (List.mem_singleton.mpr rfl) rfl rfl⟩

mutual
/-- Expanding preserves the id of the row at every index. -/
theorem expand_ids (n : HNode) (nf : Bool) (s : Store) (i : Nat) :
    ((n.expand nf s)[i]?).map Item.id = (s[i]?).map Item.id := by
  match n with
  | HNode.leaf info =>
    rw [HNode.expand, updateItemById, List.getElem?_map]
    rcases s[i]? with _ | a
    · rfl
    · by_cases h : a.id = info.id <;> simp [h]
  | HNode.tree info cs =>
    rw [HNode.expand]
    have h1 : ∀ i2 : Nat, ((if nf then updateItemById s info.id
          (fun a => { a with hidden := false })
        else updateItemById s info.id
          (fun a => { a with collapsed := false, hidden := false }))[i2]?).map Item.id =
        (s[i2]?).map Item.id := by
      intro i2
      by_cases hb : nf <;>
        simp only [hb, Bool.false_eq_true, if_true, if_false] <;>
        · rw [updateItemById, List.getElem?_map]
          rcases s[i2]? with _ | a
          · rfl
          · by_cases h : a.id = info.id <;> simp [h]
    by_cases hstop : stopAt (if nf then updateItemById s info.id
        (fun a => { a with hidden := false })
      else updateItemById s info.id
        (fun a => { a with collapsed := false, hidden := false })) info.id
    · rw [if_pos hstop]; exact h1 i
    · rw [if_neg hstop]
      exact (expandList_ids cs _ i).trans (h1 i)

/-- List version of expand_ids. -/
theorem expandList_ids (ns : List HNode) (s : Store) (i : Nat) :
    ((HNode.expandList ns s)[i]?).map Item.id = (s[i]?).map Item.id := by
  match ns with
  | [] => rw [HNode.expandList]
  | g :: gs =>
    rw [HNode.expandList]
    exact (expandList_ids gs _ i).trans (expand_ids g true s i)
end

/-- Backward direction of the expand frame: a row of the result whose id is
outside the subtree was already that row of the input store. -/
theorem expand_frame_rev (n : HNode) (nf : Bool) (s : Store) (i : Nat)
    (it2 : Item) (h2 : (n.expand nf s)[i]? = some it2)
    (h : it2.id ∉ n.subtreeIds) : s[i]? = some it2 := by
  have hids := expand_ids n nf s i
  rw [h2, Option.map_some'] at hids
  rcases hsi : s[i]? with _ | a
  · rw [hsi] at hids; simp at hids
  · rw [hsi, Option.map_some'] at hids
    have ha : a.id = it2.id := (Option.some.inj hids).symm
    have hfr := expand_frame n nf s i a hsi (by rw [ha]; exact h)
    rw [hfr] at h2
    exact h2

/-- Membership version of expand_frame_rev. -/
theorem expand_mem_rev (n : HNode) (nf : Bool) (s : Store) (it2 : Item)
    (h2 : it2 ∈ n.expand nf s) (h : it2.id ∉ n.subtreeIds) : it2 ∈ s := by
  rcases List.mem_iff_getElem?.mp h2 with ⟨i, hi⟩
  exact List.mem_iff_getElem?.mpr ⟨i, expand_frame_rev n nf s i it2 hi h⟩

/-- Clearing an already clear hidden flag is the identity. -/
theorem item_set_hidden_eq (it : Item) (h : it.hidden = false) :
    { it with hidden := false } = it := by
  cases it
  simp only at h
  simp [h]

/-- Clearing already clear collapsed and hidden flags is the identity. -/
theorem item_set_both_eq (it : Item) (hc : it.collapsed = false)
    (hh : it.hidden = false) :
    { it with collapsed := false, hidden := false } = it := by
  cases it
  simp only at hc hh
  simp [hc, hh]

/-- Mapping a function that fixes every element of a list is the identity. -/
theorem map_eq_self_of {α : Type} (s : List α) (g : α → α)
    (h : ∀ a ∈ s, g a = a) : s.map g = s := by
  induction s with
  | nil => rfl
  | cons a t ih =>
    rw [List.map_cons, h a (List.mem_cons_self a t),
      ih (fun b hb => h b (List.mem_cons_of_mem a hb))]

/-- An update whose function fixes every row carrying the id is the
identity on the store. -/
theorem update_eq_self_of (s : Store) (j : NId) (f : Item → Item)
    (h : ∀ it ∈ s, it.id = j → f it = it) : updateItemById s j f = s := by
  rw [updateItemById]
  exact map_eq_self_of s _ (fun a ha => by
    by_cases haj : a.id = j
    · rw [if_pos haj]; exact h a ha haj
    · rw [if_neg haj])

/-- Expanding a node does not change the stop flag read for an id outside
the subtree. -/
theorem expand_stopAt (n : HNode) (nf : Bool) (t : Store) (x : NId)
    (h : x ∉ n.subtreeIds) : stopAt (n.expand nf t) x = stopAt t x := by
  rw [stopAt, stopAt, expand_getItemById n nf t x h]

mutual
/-- The expanded state of a node only concerns rows and lookups of the
node's subtree ids, so an expand of a disjoint node preserves it. -/
theorem ExpandedN_pres (m : HNode) (b : Bool) (n : HNode) (nf : Bool) (t : Store)
    (he : ExpandedN m b t) (hdisj : ∀ x ∈ m.subtreeIds, x ∉ n.subtreeIds) :
    ExpandedN m b (n.expand nf t) := by
  match m with
  | HNode.leaf info =>
    rw [ExpandedN] at he ⊢
    intro it hmem hid
    refine he it ?_ hid
    exact expand_mem_rev n nf t it hmem (by
      rw [hid]
      exact hdisj info.id (by rw [HNode.subtreeIds]; exact List.mem_singleton_self _))
  | HNode.tree info cs =>
    rw [ExpandedN] at he ⊢
    have hown : info.id ∉ n.subtreeIds :=
      hdisj info.id (by rw [HNode.subtreeIds]; exact List.mem_cons_self _ _)
    constructor
    · intro it hmem hid
      refine he.1 it ?_ hid
      exact expand_mem_rev n nf t it hmem (by rw [hid]; exact hown)
    · intro hstop
      rw [expand_stopAt n nf t info.id hown] at hstop
      exact ExpandedL_pres cs n nf t (he.2 hstop) (fun x hx =>
        hdisj x (by rw [HNode.subtreeIds]; exact List.mem_cons_of_mem _ hx))

/-- List version of ExpandedN_pres. -/
theorem ExpandedL_pres (ms : List HNode) (n : HNode) (nf : Bool) (t : Store)
    (he : ExpandedL ms t) (hdisj : ∀ x ∈ HNode.subtreeIdsList ms, x ∉ n.subtreeIds) :
    ExpandedL ms (n.expand nf t) := by
  match ms with
  | [] => rw [ExpandedL]; exact trivial
  | c :: cs =>
    rw [ExpandedL] at he ⊢
    refine ⟨ExpandedN_pres c true n nf t he.1 (fun x hx => hdisj x ?_),
      ExpandedL_pres cs n nf t he.2 (fun x hx => hdisj x ?_)⟩
    · rw [HNode.subtreeIdsList]; exact List.mem_append.mpr (Or.inl hx)
    · rw [HNode.subtreeIdsList]; exact List.mem_append.mpr (Or.inr hx)
end

/-- Backward direction of the expandList frame. -/
theorem expandList_frame_rev (ns : List HNode) (s : Store) (i : Nat)
    (it2 : Item) (h2 : (HNode.expandList ns s)[i]? = some it2)
    (h : it2.id ∉ HNode.subtreeIdsList ns) : s[i]? = some it2 := by
  have hids := expandList_ids ns s i
  rw [h2, Option.map_some'] at hids
  rcases hsi : s[i]? with _ | a
  · rw [hsi] at hids; simp at hids
  · rw [hsi, Option.map_some'] at hids
    have ha : a.id = it2.id := (Option.some.inj hids).symm
    have hfr := expandList_frame ns s i a hsi (by rw [ha]; exact h)
    rw [hfr] at h2
    exact h2

/-- Membership version of expandList_frame_rev. -/
theorem expandList_mem_rev (ns : List HNode) (s : Store) (it2 : Item)
    (h2 : it2 ∈ HNode.expandList ns s) (h : it2.id ∉ HNode.subtreeIdsList ns) :
    it2 ∈ s := by
  rcases List.mem_iff_getElem?.mp h2 with ⟨i, hi⟩
  exact List.mem_iff_getElem?.mpr ⟨i, expandList_frame_rev ns s i it2 hi h⟩

/-- Expanding a whole forest preserves the expanded state of a disjoint
node. -/
theorem ExpandedN_pres_list (m : HNode) (b : Bool) (ns : List HNode) (t : Store)
    (he : ExpandedN m b t)
    (hdisj : ∀ x ∈ m.subtreeIds, x ∉ HNode.subtreeIdsList ns) :
    ExpandedN m b (HNode.expandList ns t) := by
  induction ns generalizing t with
  | nil => rw [HNode.expandList]; exact he
  | cons g gs ih =>
    rw [HNode.expandList]
    refine ih _ (ExpandedN_pres m b g true t he (fun x hx hmem =>
      hdisj x hx ?_)) (fun x hx hmem => hdisj x hx ?_)
    · rw [HNode.subtreeIdsList]; exact List.mem_append.mpr (Or.inl hmem)
    · rw [HNode.subtreeIdsList]; exact List.mem_append.mpr (Or.inr hmem)

mutual
/-- An expand call leaves the store in the corresponding expanded state. -/
theorem ExpandedN_estab (n : HNode) (nf : Bool) (s : Store)
    (hnd : n.subtreeIds.Nodup) : ExpandedN n nf (n.expand nf s) := by
  match n with
  | HNode.leaf info =>
    rw [ExpandedN, HNode.expand, updateItemById]
    intro it hmem hid
    rcases List.mem_map.mp hmem with ⟨a, _, hga⟩
    by_cases haj : a.id = info.id
    · rw [if_pos haj] at hga
      rw [← hga]
      exact ⟨rfl, rfl⟩
    · rw [if_neg haj] at hga
      rw [← hga] at hid
      exact absurd hid haj
  | HNode.tree info cs =>
    rw [HNode.subtreeIds] at hnd
    have hhead : info.id ∉ HNode.subtreeIdsList cs := (List.nodup_cons.mp hnd).1
    have htail : (HNode.subtreeIdsList cs).Nodup := (List.nodup_cons.mp hnd).2
    rw [ExpandedN]
    by_cases hb : nf
    · subst hb
      rw [HNode.expand]
      simp only [if_true]
      by_cases hstop : stopAt (updateItemById s info.id
          (fun a => { a with hidden := false })) info.id
      · rw [if_pos hstop]
        constructor
        · intro it hmem hid
          rcases List.mem_map.mp (by simpa [updateItemById] using hmem) with
            ⟨a, _, hga⟩
          by_cases haj : a.id = info.id
          · rw [if_pos haj] at hga
            rw [← hga]
            exact ⟨fun hfalse => absurd hfalse (by simp), rfl⟩
          · rw [if_neg haj] at hga
            rw [← hga] at hid
            exact absurd hid haj
        · intro hstop2
          rw [hstop] at hstop2
          exact absurd hstop2 (by simp)
      · rw [if_neg hstop]
        constructor
        · intro it hmem hid
          have hmem2 : it ∈ updateItemById s info.id
              (fun a => { a with hidden := false }) :=
            expandList_mem_rev cs _ it hmem (by rw [hid]; exact hhead)
          rcases List.mem_map.mp (by simpa [updateItemById] using hmem2) with
            ⟨a, _, hga⟩
          by_cases haj : a.id = info.id
          · rw [if_pos haj] at hga
            rw [← hga]
            exact ⟨fun hfalse => absurd hfalse (by simp), rfl⟩
          · rw [if_neg haj] at hga
            rw [← hga] at hid
            exact absurd hid haj
        · intro hstop2
          exact ExpandedL_estab cs _ htail
    · have hb2 : nf = false := by
        rcases Bool.eq_false_or_eq_true nf with h | h
        · exact absurd h hb
        · exact h
      subst hb2
      rw [HNode.expand]
      simp only [Bool.false_eq_true, if_false]
      by_cases hstop : stopAt (updateItemById s info.id
          (fun a => { a with collapsed := false, hidden := false })) info.id
      · rw [if_pos hstop]
        constructor
        · intro it hmem hid
          rcases List.mem_map.mp (by simpa [updateItemById] using hmem) with
            ⟨a, _, hga⟩
          by_cases haj : a.id = info.id
          · rw [if_pos haj] at hga
            rw [← hga]
            exact ⟨fun _ => rfl, rfl⟩
          · rw [if_neg haj] at hga
            rw [← hga] at hid
            exact absurd hid haj
        · intro hstop2
          rw [hstop] at hstop2
          exact absurd hstop2 (by simp)
      · rw [if_neg hstop]
        constructor
        · intro it hmem hid
          have hmem2 : it ∈ updateItemById s info.id
              (fun a => { a with collapsed := false, hidden := false }) :=
            expandList_mem_rev cs _ it hmem (by rw [hid]; exact hhead)
          rcases List.mem_map.mp (by simpa [updateItemById] using hmem2) with
            ⟨a, _, hga⟩
          by_cases haj : a.id = info.id
          · rw [if_pos haj] at hga
            rw [← hga]
            exact ⟨fun _ => rfl, rfl⟩
          · rw [if_neg haj] at hga
            rw [← hga] at hid
            exact absurd hid haj
        · intro hstop2
          exact ExpandedL_estab cs _ htail

/-- Expanding a forest leaves it in the expanded list state. -/
theorem ExpandedL_estab (ns : List HNode) (s : Store)
    (hnd : (HNode.subtreeIdsList ns).Nodup) :
    ExpandedL ns (HNode.expandList ns s) := by
  match ns with
  | [] => rw [ExpandedL]; exact trivial
  | g :: gs =>
    rw [HNode.subtreeIdsList] at hnd
    have hg : g.subtreeIds.Nodup := (List.nodup_append.mp hnd).1
    have hgs : (HNode.subtreeIdsList gs).Nodup := (List.nodup_append.mp hnd).2.1
    have hdisj := (List.nodup_append.mp hnd).2.2
    rw [HNode.expandList, ExpandedL]
    constructor
    · exact ExpandedN_pres_list g true gs _ (ExpandedN_estab g true s hg)
        (fun x hx => hdisj hx)
    · exact ExpandedL_estab gs _ hgs
end

mutual
/-- An expand call on a store already in the expanded state is the
identity. -/
theorem expand_fix (n : HNode) (nf : Bool) (s : Store) (he : ExpandedN n nf s) :
    n.expand nf s = s := by
  match n with
  | HNode.leaf info =>
    rw [ExpandedN] at he
    rw [HNode.expand]
    exact update_eq_self_of s info.id _ (fun it hm hid =>
      item_set_both_eq it (he it hm hid).1 (he it hm hid).2)
  | HNode.tree info cs =>
    rw [ExpandedN] at he
    by_cases hb : nf
    · subst hb
      have hs1 : updateItemById s info.id (fun a => { a with hidden := false }) = s :=
        update_eq_self_of s info.id _ (fun it hm hid =>
          item_set_hidden_eq it (he.1 it hm hid).2)
      rw [HNode.expand]
      simp only [if_true]
      rw [hs1]
      by_cases hstop : stopAt s info.id
      · rw [if_pos hstop]
      · rw [if_neg hstop]
        exact expandList_fix cs s (he.2 (Bool.eq_false_iff.mpr hstop))
    · have hb2 : nf = false := by
        rcases Bool.eq_false_or_eq_true nf with h | h
        · exact absurd h hb
        · exact h
      subst hb2
      have hs1 : updateItemById s info.id
          (fun a => { a with collapsed := false, hidden := false }) = s :=
        update_eq_self_of s info.id _ (fun it hm hid =>
          item_set_both_eq it ((he.1 it hm hid).1 rfl) (he.1 it hm hid).2)
      rw [HNode.expand]
      simp only [Bool.false_eq_true, if_false]
      rw [hs1]
      by_cases hstop : stopAt s info.id
      · rw [if_pos hstop]
      · rw [if_neg hstop]
        exact expandList_fix cs s (he.2 (Bool.eq_false_iff.mpr hstop))

/-- List version of expand_fix. -/
theorem expandList_fix (ns : List HNode) (s : Store) (he : ExpandedL ns s) :
    HNode.expandList ns s = s := by
  match ns with
  | [] => rw [HNode.expandList]
  | g :: gs =>
    rw [ExpandedL] at he
    rw [HNode.expandList, expand_fix g true s he.1]
    exact expandList_fix gs s he.2
end

/-- C8: expanding an already materialized folder twice in a row produces
exactly the same store, hence exactly the same visible-row set, as
expanding it once. -/
theorem C8_expand_idempotent (info : NInfo) (cs : List HNode) (s : Store)
    (hnd : (HNode.tree info cs).subtreeIds.Nodup) :
    (HNode.tree info cs).expand false ((HNode.tree info cs).expand false s) =
      (HNode.tree info cs).expand false s ∧
    visibleRows ((HNode.tree info cs).expand false
        ((HNode.tree info cs).expand false s)) =
      visibleRows ((HNode.tree info cs).expand false s) := by
  have h1 := ExpandedN_estab (HNode.tree info cs) false s hnd
  have h2 := expand_fix (HNode.tree info cs) false _ h1
  exact ⟨h2, by rw [h2]⟩

/-- C8 witness: the theorem applies to the docs folder of the end-to-end
scenario, already expanded in its freshly built store. -/
theorem C8_expand_idempotent_witness :
    (HNode.tree docsInfo docsChildren).subtreeIds.Nodup ∧
    visibleRows ((HNode.tree docsInfo docsChildren).expand false
        ((HNode.tree docsInfo docsChildren).expand false docsStore)) =
      visibleRows ((HNode.tree docsInfo docsChildren).expand false docsStore) :=
  ⟨by decide,
    (C8_expand_idempotent docsInfo docsChildren docsStore (by decide)).2⟩

/-- C9: in the toData merge of both Tree and Leaf the structural fields
come first and the user data second, so a user data field named depth or
parentID overrides the computed structural value in the projected row, and
only in its absence does the structural value survive. The Tree case is
stated for a non root node (the root contributes no row). -/
theorem C9_toData_user_override (info : NInfo) (cs : List HNode)
    (hnr : info.depth ≠ some 0) :
    (∀ d : Nat, info.data.odepth = some d →
      ((HNode.toData (HNode.leaf info)).head?).map Item.depth = some (some d) ∧
      ((HNode.toData (HNode.tree info cs)).head?).map Item.depth = some (some d)) ∧
    (∀ p : NId, info.data.oparentID = some p →
      ((HNode.toData (HNode.leaf info)).head?).map Item.parentID = some (some p) ∧
      ((HNode.toData (HNode.tree info cs)).head?).map Item.parentID = some (some p)) ∧
    (info.data.odepth = none →
      ((HNode.toData (HNode.leaf info)).head?).map Item.depth = some info.depth ∧
      ((HNode.toData (HNode.tree info cs)).head?).map Item.depth = some info.depth) ∧
    (info.data.oparentID = none →
      ((HNode.toData (HNode.leaf info)).head?).map Item.parentID = some info.parentID ∧
      ((HNode.toData (HNode.tree info cs)).head?).map Item.parentID =
        some info.parentID) := by
  refine ⟨fun d hd => ⟨?_, ?_⟩, fun p hp => ⟨?_, ?_⟩,
    fun hd => ⟨?_, ?_⟩, fun hp => ⟨?_, ?_⟩⟩ <;>
    simp [HNode.toData, mkItem, HNode.info, hnr, *]

/-- C9 witness: a user data depth of 7 overrides a structural depth of 2 in
the projected row of a leaf. -/
theorem C9_toData_user_override_witness :
    ((some 2 : Option Nat) ≠ some 0 ∧
      ({ aTxtInfo with data := { aTxtInfo.data with odepth := some 7 }} :
        NInfo).data.odepth = some 7) ∧
    ((HNode.toData (HNode.leaf { aTxtInfo with
        data := { aTxtInfo.data with odepth := some 7 } })).head?).map Item.depth =
      some (some 7) :=
  ⟨⟨by decide, rfl⟩,
    ((C9_toData_user_override { aTxtInfo with
        data := { aTxtInfo.data with odepth := some 7 } } [] (by decide)).1 7 rfl).1⟩

/-- Finding in a concatenation whose first part has no match returns the
first match of the rest. -/
theorem find?_first {α : Type} (p : α → Bool) (l1 l2 : List α) (r : α)
    (h1 : ∀ b ∈ l1, ¬p b = true) (hr : p r = true) :
    List.find? p (l1 ++ r :: l2) = some r := by
  induction l1 with
  | nil => simpa using List.find?_cons_of_pos l2 hr
  | cons a t ih =>
    rw [List.cons_append, List.find?_cons_of_neg _ (h1 a (List.mem_cons_self a t))]
    exact ih (fun b hb => h1 b (List.mem_cons_of_mem a hb))

/-- C10: for an id present in the store, removeItem returns the first row
carrying the id, deletes exactly that one row from the store, and leaves
the Tree and Leaf structure and all other rows untouched. -/
theorem C10_removeItem_frame (g : HGridState) (i : NId)
    (h : ∃ it ∈ g.store, it.id = i) :
    ∃ l1 r l2, g.store = l1 ++ r :: l2 ∧ r.id = i ∧ (∀ b ∈ l1, b.id ≠ i) ∧
      (removeItem g i).1 = some r ∧
      (removeItem g i).2.store = l1 ++ l2 ∧
      (removeItem g i).2.tree = g.tree := by
  rcases h with ⟨a, ha, hai⟩
  rcases @List.exists_of_eraseP _ (fun it => decide (it.id = i)) g.store a ha
    (by simpa using hai) with ⟨r, l1, l2, hl1, hr, hs, he⟩
  refine ⟨l1, r, l2, hs, by simpa using hr, fun b hb => by simpa using hl1 b hb,
    ?_, ?_, rfl⟩
  · rw [removeItem]
    simp only [getItemById]
    rw [hs]
    exact find?_first _ l1 l2 r hl1 hr
  · rw [removeItem]
    simp only [deleteItem]
    rw [hs]
    have : List.eraseP (fun it => decide (it.id = i)) (l1 ++ r :: l2) = l1 ++ l2 := by
      rw [← hs]
      exact he.symm ▸ rfl
    exact this

/-- C10 witness: removing the docs row id from the scenario grid state. -/
theorem C10_removeItem_frame_witness :
    (∃ it ∈ docsStore, it.id = NId.node 0) ∧
    ∃ l1 r l2, docsStore = l1 ++ r :: l2 ∧ r.id = NId.node 0 ∧
      (∀ b ∈ l1, b.id ≠ NId.node 0) ∧
      (removeItem { tree := docsTree, store := docsStore } (NId.node 0)).1 = some r ∧
      (removeItem { tree := docsTree, store := docsStore } (NId.node 0)).2.store =
        l1 ++ l2 ∧
      (removeItem { tree := docsTree, store := docsStore } (NId.node 0)).2.tree =
        docsTree :=
  ⟨by decide,
    C10_removeItem_frame { tree := docsTree, store := docsStore } (NId.node 0)
      (by decide)⟩

/-- C5 counterexample: in the end-to-end scenario state (docs collapsed
first, as the spec's sequence does), removing docs by id leaves the a.txt
row in the store, refuting the claim that the folder's descendant rows are
removed from the store as well. -/
theorem C5_counterexample :
    ((removeItem { tree := docsTree, store := docsCollapsedStore }
        (NId.node 0)).2.store).map Item.name = ["a.txt", "b.txt"] := by
  rfl

/-- C5 amended: in the end-to-end scenario (docs collapsed first), removing
docs by id deletes exactly the docs row and returns it; the a.txt row
remains in the store, hidden from the collapse and with its parentID still
referencing the removed docs id, so only b.txt stays visible even though
a.txt was not removed from the store. -/
theorem C5_removeItem_scenario :
    ((removeItem { tree := docsTree, store := docsCollapsedStore }
        (NId.node 0)).1).map Item.name = some "docs" ∧
    ((removeItem { tree := docsTree, store := docsCollapsedStore }
        (NId.node 0)).2.store).map Item.name = ["a.txt", "b.txt"] ∧
    ((removeItem { tree := docsTree, store := docsCollapsedStore }
        (NId.node 0)).2.store).map Item.hidden = [true, false] ∧
    (visibleRows ((removeItem { tree := docsTree, store := docsCollapsedStore }
        (NId.node 0)).2.store)).map Item.name = ["b.txt"] ∧
    ((removeItem { tree := docsTree, store := docsCollapsedStore }
        (NId.node 0)).2.store).map Item.parentID =
      [some (NId.node 0), some NId.root] := by
  refine ⟨rfl, rfl, rfl, rfl, rfl⟩

/-- C7: the three embedded failure paths raise an HGridError exactly under
the three documented conditions: construction fails iff data and ajaxSource
are both supplied or uploads are enabled without Dropzone loaded, and the
full tree resync fails iff the node has no reachable row store; every error
raised carries the HGridError name. -/
theorem C7_error_conditions (o : HGridOptions) (dz : Bool) (dv : Option Store)
    (t : HNode) :
    ((hgridConstruct o dz).isOk = false ↔
      (o.data && o.ajaxSource) = true ∨ (o.uploads && !dz) = true) ∧
    ((updateDataView dv t).isOk = false ↔ dv = none) ∧
    (∀ e : HGridError, hgridConstruct o dz = Except.error e → e.name = "HGridError") ∧
    (∀ e : HGridError, updateDataView dv t = Except.error e → e.name = "HGridError") := by
  refine ⟨?_, ?_, ?_, ?_⟩
  · rw [hgridConstruct, initUploads]
    by_cases h1 : (o.data && o.ajaxSource) = true
    · simp [h1, Except.isOk, Except.toBool]
    · by_cases h2 : (o.uploads && !dz) = true <;>
        simp [h1, h2, Except.isOk, Except.toBool]
  · rcases dv with _ | s <;> simp [updateDataView, Except.isOk, Except.toBool]
  · intro e he
    rw [hgridConstruct, initUploads] at he
    by_cases h1 : (o.data && o.ajaxSource) = true
    · rw [if_pos h1] at he
      cases he
      rfl
    · rw [if_neg h1] at he
      by_cases h2 : (o.uploads && !dz) = true
      · rw [if_pos h2] at he
        cases he
        rfl
      · rw [if_neg h2] at he
        cases he
  · intro e he
    rcases dv with _ | s
    · rw [updateDataView] at he
      cases he
      rfl
    · rw [updateDataView] at he
      cases he

/-- C7 witness: a concrete configuration with both data sources fails, and
a full tree resync on a node without a reachable row store fails. -/
theorem C7_error_conditions_witness :
    (hgridConstruct { data := true, ajaxSource := true, uploads := false }
      false).isOk = false ∧
    (updateDataView none docsTree).isOk = false :=
  ⟨((C7_error_conditions { data := true, ajaxSource := true, uploads := false }
      false none docsTree).1).mpr (Or.inl rfl),
    ((C7_error_conditions { data := true, ajaxSource := true, uploads := false }
      false none docsTree).2.1).mpr rfl⟩

/-- Structural fields of a node after the attach assignments of
Tree.prototype.add. -/
theorem setAttached_info (nd : HNode) (pid : NId) (pdepth : Option Nat) :
    (setAttached nd pid pdepth).info =
      { id := nd.info.id, parentID := some pid,
        depth := some (pdepth.getD 0 + 1), data := nd.info.data } := by
  cases nd <;> rfl

/-- Structural fields of the node freshly built by addItem. -/
theorem newNodeFor_info (d : ObjData) (c : Nat) :
    (newNodeFor d c).info =
      { id := (idAlloc d.oid c).1, parentID := none, depth := none,
        data := d } := by
  rw [newNodeFor]
  by_cases hk : d.kind = FOLDER <;> simp [hk, HNode.info]

/-- Children of the node freshly built by addItem: always empty. -/
theorem newNodeFor_children (d : ObjData) (c : Nat) :
    (newNodeFor d c).children = [] := by
  rw [newNodeFor]
  by_cases hk : d.kind = FOLDER <;> simp [hk, HNode.children]

/-- Syncing one childless component into the DataView is a single insert of
its merged row at its computed index (both the Leaf arm and the Tree arm
with an empty-array toData reduce to one insert). -/
theorem insertIntoDataView_singleton (nd : HNode) (pid : NId)
    (pdepth : Option Nat) (s : Store) (hch : nd.children = []) :
    insertIntoDataView s (setAttached nd pid pdepth) =
      s.insertIdx (computeAddIdx (mkItem (setAttached nd pid pdepth)) s)
        (mkItem (setAttached nd pid pdepth)) := by
  cases nd with
  | leaf linfo => rw [setAttached, insertIntoDataView]
  | tree linfo cs =>
    have hcs : cs = [] := by simpa [HNode.children] using hch
    subst hcs
    rw [setAttached, insertIntoDataView, HNode.toData, HNode.toDataList]
    rw [if_neg (by simp)]
    rw [List.singleton_append, insertData, insertData]

/-- C4: attaching a single new childless node (file or folder) with store
sync inserts its one row at the index immediately after the parent's
current row index, or at index 0 when the parent's id has no row (the root
case included); the row carries the parent's id as parentID and the
parent's depth plus one as depth. The same holds along the grid's own
addItem path, whose data carries the id of the parent it is resolved
against. -/
theorem C4_insertion_index (p : NInfo) (pcs : List HNode) (nd : HNode)
    (s : Store) (hch : nd.children = [])
    (hnp : nd.info.data.oparentID = none)
    (hnd : nd.info.data.odepth = none) :
    ((getItemById s p.id).isSome = true →
      (HNode.add (HNode.tree p pcs) nd true s).map (fun r => r.2.2) =
        some (s.insertIdx (getIdxById s p.id + 1)
          (mkItem (setAttached nd p.id p.depth)))) ∧
    (getItemById s p.id = none →
      (HNode.add (HNode.tree p pcs) nd true s).map (fun r => r.2.2) =
        some (s.insertIdx 0 (mkItem (setAttached nd p.id p.depth)))) ∧
    (mkItem (setAttached nd p.id p.depth)).parentID = some p.id ∧
    (mkItem (setAttached nd p.id p.depth)).depth = some (p.depth.getD 0 + 1) ∧
    (∀ (root : HNode) (d : ObjData) (m : Nat) (qi : NInfo)
        (qcs : List HNode) (c : Nat),
      d.oparentID = some (NId.node m) → d.odepth = none →
      (getItemById s (NId.node m)).bind Item.node =
        some (HNode.tree qi qcs) →
      qi.id = NId.node m →
      hgridAddItem root s d c =
        some (s.insertIdx (getIdxById s (NId.node m) + 1)
          (mkItem (setAttached (newNodeFor d c) qi.id qi.depth)),
          (idAlloc d.oid c).2) ∧
      (mkItem (setAttached (newNodeFor d c) qi.id qi.depth)).parentID =
        some (NId.node m) ∧
      (mkItem (setAttached (newNodeFor d c) qi.id qi.depth)).depth =
        some (qi.depth.getD 0 + 1)) := by
  have hpar : (mkItem (setAttached nd p.id p.depth)).parentID = some p.id := by
    rw [mkItem, setAttached_info]
    simp [hnp]
  have hdep : (mkItem (setAttached nd p.id p.depth)).depth =
      some (p.depth.getD 0 + 1) := by
    rw [mkItem, setAttached_info]
    simp [hnd]
  have hbind : (mkItem (setAttached nd p.id p.depth)).parentID.bind
      (fun pid => getItemById s pid) = getItemById s p.id := by
    rw [hpar]
    rfl
  refine ⟨?_, ?_, hpar, hdep, ?_⟩
  · intro hsome
    rcases hG : getItemById s p.id with _ | p0
    · rw [hG] at hsome; simp at hsome
    · have hp0 : p0.id = p.id := by
        simpa using List.find?_some hG
      rw [HNode.add]
      simp only [if_true, Option.map_some']
      rw [insertIntoDataView_singleton nd p.id p.depth s hch]
      rw [computeAddIdx, hbind, hG]
      simp [hp0]
  · intro hnone
    rw [HNode.add]
    simp only [if_true, Option.map_some']
    rw [insertIntoDataView_singleton nd p.id p.depth s hch]
    rw [computeAddIdx, hbind, hnone]
  · intro root d m qi qcs c hdp hdd hgB hqid
    rcases hG : getItemById s (NId.node m) with _ | g
    · rw [hG] at hgB; simp at hgB
    have hgn : g.node = some (HNode.tree qi qcs) := by
      rw [hG] at hgB; simpa using hgB
    have hgid0 : g.id = NId.node m := by
      simpa using List.find?_some hG
    have hparI : (mkItem (setAttached (newNodeFor d c) qi.id qi.depth)).parentID =
        some (NId.node m) := by
      rw [mkItem, setAttached_info, newNodeFor_info]
      simp [hdp]
    have hdepI : (mkItem (setAttached (newNodeFor d c) qi.id qi.depth)).depth =
        some (qi.depth.getD 0 + 1) := by
      rw [mkItem, setAttached_info, newNodeFor_info]
      simp [hdd]
    have hidI : (mkItem (setAttached (newNodeFor d c) qi.id qi.depth)).id =
        (idAlloc d.oid c).1 := by
      rw [mkItem, setAttached_info, newNodeFor_info]
    have hcomp : computeAddIdx
        (mkItem (setAttached (newNodeFor d c) qi.id qi.depth)) s =
        getIdxById s (NId.node m) + 1 := by
      rw [computeAddIdx, hparI]
      have hb : (some (NId.node m)).bind (fun pid => getItemById s pid) =
          getItemById s (NId.node m) := rfl
      rw [hb, hG]
      show getIdxById s g.id + 1 = getIdxById s (NId.node m) + 1
      rw [hgid0]
    have hidx2 : getIdxById s (NId.node m) < s.length :=
      List.findIdx_lt_length_of_exists
        ⟨g, List.mem_of_find?_eq_some hG, by simpa using hgid0⟩
    have hins := insertIntoDataView_singleton (newNodeFor d c) qi.id qi.depth s
      (newNodeFor_children d c)
    have hmemI : (mkItem (setAttached (newNodeFor d c) qi.id qi.depth)) ∈
        s.insertIdx (computeAddIdx
          (mkItem (setAttached (newNodeFor d c) qi.id qi.depth)) s)
          (mkItem (setAttached (newNodeFor d c) qi.id qi.depth)) := by
      refine (List.mem_insertIdx ?_).mpr (Or.inl rfl)
      rw [hcomp]
      omega
    have hlook : (getItemById (s.insertIdx (computeAddIdx
        (mkItem (setAttached (newNodeFor d c) qi.id qi.depth)) s)
        (mkItem (setAttached (newNodeFor d c) qi.id qi.depth)))
        ((idAlloc d.oid c).1)).isSome = true := by
      have hpI : (fun it => decide (it.id = (idAlloc d.oid c).1))
          (mkItem (setAttached (newNodeFor d c) qi.id qi.depth)) = true := by
        simpa using hidI
      rw [getItemById]
      exact List.find?_isSome.mpr
        ⟨mkItem (setAttached (newNodeFor d c) qi.id qi.depth), hmemI, hpI⟩
    refine ⟨?_, hparI, hdepI⟩
    rcases hY : getItemById (s.insertIdx (computeAddIdx
        (mkItem (setAttached (newNodeFor d c) qi.id qi.depth)) s)
        (mkItem (setAttached (newNodeFor d c) qi.id qi.depth)))
        ((idAlloc d.oid c).1) with _ | y
    · rw [hY] at hlook; simp at hlook
    · simp only [hgridAddItem, hdp, getNodeByID]
      rw [hgB]
      simp only [Option.some_bind, HNode.add, Option.bind_some, if_true]
      rw [hins]
      have hinfoid : (newNodeFor d c).info.id = (idAlloc d.oid c).1 := by
        rw [newNodeFor_info]
      rw [hinfoid, hY, Option.map_some', hcomp]

/-- C4 witness: adding a new file node under the docs folder of the
scenario inserts its row immediately after the docs row, both through
Tree.add directly and through the addItem path. -/
theorem C4_insertion_index_witness :
    ((HNode.leaf newLeafInfo).children = [] ∧
      (HNode.leaf newLeafInfo).info.data.oparentID = none ∧
      (HNode.leaf newLeafInfo).info.data.odepth = none ∧
      (getItemById docsStore docsInfo.id).isSome = true ∧
      addItemData.oparentID = some (NId.node 0) ∧ addItemData.odepth = none ∧
      (getItemById docsStore (NId.node 0)).bind Item.node =
        some (HNode.tree docsInfo docsChildren) ∧
      docsInfo.id = NId.node 0) ∧
    ((HNode.add (HNode.tree docsInfo docsChildren) (HNode.leaf newLeafInfo)
        true docsStore).map (fun r => r.2.2) =
      some (docsStore.insertIdx (getIdxById docsStore docsInfo.id + 1)
        (mkItem (setAttached (HNode.leaf newLeafInfo) docsInfo.id
          docsInfo.depth)))) ∧
    (hgridAddItem docsTree docsStore addItemData 10 =
      some (docsStore.insertIdx (getIdxById docsStore (NId.node 0) + 1)
        (mkItem (setAttached (newNodeFor addItemData 10) docsInfo.id
          docsInfo.depth)),
        (idAlloc addItemData.oid 10).2)) :=
  ⟨⟨rfl, rfl, rfl, by decide, rfl, rfl, rfl, rfl⟩,
    (C4_insertion_index docsInfo docsChildren (HNode.leaf newLeafInfo)
      docsStore rfl rfl rfl).1 (by decide),
    ((C4_insertion_index docsInfo docsChildren (HNode.leaf newLeafInfo)
      docsStore rfl rfl rfl).2.2.2.2 docsTree addItemData 0 docsInfo
      docsChildren 10 rfl rfl rfl rfl).1⟩

/-- Inserting a row whose id differs from the looked up id does not change
the lookup. -/
theorem getItemById_insertIdx_ne (s : Store) (n : Nat) (b : Item) (x : NId)
    (hne : b.id ≠ x) : getItemById (s.insertIdx n b) x = getItemById s x := by
  induction s generalizing n with
  | nil =>
    cases n with
    | zero =>
      rw [List.insertIdx_zero, getItemById, getItemById,
        List.find?_cons_of_neg _ (by simpa using hne)]
    | succ m => rfl
  | cons a t ih =>
    cases n with
    | zero =>
      rw [List.insertIdx_zero, getItemById, getItemById,
        List.find?_cons_of_neg _ (by simpa using hne)]
    | succ m =>
      rw [List.insertIdx_succ_cons]
      by_cases hax : a.id = x
      · rw [getItemById, List.find?_cons_of_pos _ (by simpa using hax),
          getItemById, List.find?_cons_of_pos _ (by simpa using hax)]
      · rw [getItemById, List.find?_cons_of_neg _ (by simpa using hax),
          getItemById, List.find?_cons_of_neg _ (by simpa using hax)]
        exact ih m

/-- Rows of the original store survive an insertion. -/
theorem mem_insertIdx_of_mem (s : Store) (n : Nat) (b a : Item) (ha : a ∈ s) :
    a ∈ s.insertIdx n b := by
  by_cases h : n ≤ s.length
  · exact (List.mem_insertIdx h).mpr (Or.inr ha)
  · rw [List.insertIdx_of_length_lt s b n (by omega)]
    exact ha

/-- A row of a store with an insertion is the inserted row or an original
row. -/
theorem mem_of_mem_insertIdx (s : Store) (n : Nat) (b a : Item)
    (ha : a ∈ s.insertIdx n b) : a = b ∨ a ∈ s := by
  by_cases h : n ≤ s.length
  · exact (List.mem_insertIdx h).mp ha
  · rw [List.insertIdx_of_length_lt s b n (by omega)] at ha
    exact Or.inr ha

/-- Deleting one id does not change the lookup of another id. -/
theorem getItemById_deleteItem_ne (t : Store) (j x : NId) (hne : x ≠ j) :
    getItemById (deleteItem t j) x = getItemById t x := by
  induction t with
  | nil => rfl
  | cons a l ih =>
    by_cases haj : a.id = j
    · rw [deleteItem, List.eraseP_cons_of_pos (by simpa using haj)]
      have hfalse : ¬(a.id = x) := by rw [haj]; exact fun he => hne he.symm
      rw [getItemById, getItemById, List.find?_cons_of_neg _ (by simpa using hfalse)]
    · rw [deleteItem, List.eraseP_cons_of_neg (by simpa using haj)]
      by_cases hax : a.id = x
      · rw [getItemById, List.find?_cons_of_pos _ (by simpa using hax),
          getItemById, List.find?_cons_of_pos _ (by simpa using hax)]
      · rw [getItemById, List.find?_cons_of_neg _ (by simpa using hax),
          getItemById, List.find?_cons_of_neg _ (by simpa using hax)]
        exact ih

/-- Deletion only removes rows. -/
theorem mem_of_mem_deleteItem (t : Store) (j : NId) (a : Item)
    (ha : a ∈ deleteItem t j) : a ∈ t :=
  (List.eraseP_sublist t).mem ha

/-- Deletion preserves distinctness of the row ids. -/
theorem deleteItem_nodup (t : Store) (j : NId) (hnd : (t.map Item.id).Nodup) :
    ((deleteItem t j).map Item.id).Nodup :=
  List.Nodup.sublist (List.Sublist.map Item.id (List.eraseP_sublist t)) hnd

/-- After deleting an id from a store with distinct ids, no row carries it. -/
theorem deleteItem_not_mem (t : Store) (j : NId) (hnd : (t.map Item.id).Nodup) :
    ∀ x ∈ deleteItem t j, x.id ≠ j := by
  intro x hx he
  by_cases hj : ∃ a ∈ t, a.id = j
  · rcases hj with ⟨a, ha, haj⟩
    rcases @List.exists_of_eraseP _ (fun it => decide (it.id = j)) t a ha
      (by simpa using haj) with ⟨r, l1, l2, hl1, hr, hs, hdel⟩
    rw [deleteItem, hdel] at hx
    have hrj : r.id = j := by simpa using hr
    have hxt : x ∈ l1 ∨ x ∈ l2 := List.mem_append.mp hx
    have hnd2 : ((l1 ++ r :: l2).map Item.id).Nodup := by rw [← hs]; exact hnd
    rcases hxt with h1 | h2
    · exact (by simpa using hl1 x h1 : ¬x.id = j) he
    · rw [List.map_append, List.map_cons] at hnd2
      have hdisj := (List.nodup_append.mp hnd2).2.1
      have hnotin := (List.nodup_cons.mp hdisj).1
      have hxm : x.id ∈ l2.map Item.id := List.mem_map_of_mem Item.id h2
      rw [he, ← hrj] at hxm
      exact hnotin hxm
  · have : x ∈ t := mem_of_mem_deleteItem t j x hx
    exact hj ⟨x, this, he⟩

/-- Facts about the delete pass of onMoveRows: ids stay distinct, no new
rows appear, and no surviving row carries a deleted id. -/
theorem deleteFold_facts (ds : List ObjData) (t : Store)
    (hnd : (t.map Item.id).Nodup) :
    (((ds.foldl (fun a d => deleteItem a (idOfData d)) t).map Item.id).Nodup) ∧
    (∀ x ∈ ds.foldl (fun a d => deleteItem a (idOfData d)) t, x ∈ t) ∧
    (∀ x ∈ ds.foldl (fun a d => deleteItem a (idOfData d)) t,
      ∀ d ∈ ds, x.id ≠ idOfData d) := by
  induction ds generalizing t with
  | nil => exact ⟨hnd, fun x hx => hx, fun x _ d hd => absurd hd (List.not_mem_nil d)⟩
  | cons d rest ih =>
    rw [List.foldl_cons]
    have hnd1 := deleteItem_nodup t (idOfData d) hnd
    rcases ih (deleteItem t (idOfData d)) hnd1 with ⟨h1, h2, h3⟩
    refine ⟨h1, fun x hx => mem_of_mem_deleteItem t _ x (h2 x hx), ?_⟩
    intro x hx e he
    rcases List.mem_cons.mp he with h | h
    · subst h
      exact deleteItem_not_mem t (idOfData e) hnd x (h2 x hx)
    · exact h3 x hx e h

/-- The delete pass does not change the lookup of an id it does not
delete. -/
theorem deleteFold_lookup (ds : List ObjData) (t : Store) (x : NId)
    (h : ∀ d ∈ ds, x ≠ idOfData d) :
    getItemById (ds.foldl (fun a d => deleteItem a (idOfData d)) t) x =
      getItemById t x := by
  induction ds generalizing t with
  | nil => rfl
  | cons d rest ih =>
    rw [List.foldl_cons,
      ih _ (fun e he => h e (List.mem_cons_of_mem d he)),
      getItemById_deleteItem_ne t _ x (h d (List.mem_cons_self d rest))]

/-- Store facts about inserting one re-added copy row at its computed
index: old rows survive, the only new row is the copy (carrying the target
parent id and the recomputed depth), the copy is present and findable, and
the target folder's row lookup is unchanged. -/
theorem insert_copy_facts (m n gd : Nat) (t : Store) (itI : Item)
    (hI1 : itI.id = NId.node n) (hI2 : itI.parentID = some (NId.node m))
    (hI3 : itI.depth = some (gd + 1)) (hneq : NId.node n ≠ NId.node m)
    (hidx : getIdxById t (NId.node m) < t.length)
    (hsome : (getItemById t (NId.node m)).isSome = true) :
    (∀ x ∈ t, x ∈ t.insertIdx (computeAddIdx itI t) itI) ∧
    (∀ x ∈ t.insertIdx (computeAddIdx itI t) itI, x ∈ t ∨
      (x.id = NId.node n ∧ x.parentID = some (NId.node m) ∧
        x.depth = some (gd + 1))) ∧
    (∃ row ∈ t.insertIdx (computeAddIdx itI t) itI, row.id = NId.node n ∧
      row.parentID = some (NId.node m) ∧ row.depth = some (gd + 1)) ∧
    (getItemById (t.insertIdx (computeAddIdx itI t) itI) (NId.node m) =
      getItemById t (NId.node m)) ∧
    ((getItemById (t.insertIdx (computeAddIdx itI t) itI)
      (NId.node n)).isSome = true) := by
  have hkle : computeAddIdx itI t ≤ t.length := by
    rcases hG : getItemById t (NId.node m) with _ | gRow
    · rw [hG] at hsome; simp at hsome
    · have hgrid : gRow.id = NId.node m := by simpa using List.find?_some hG
      rw [computeAddIdx, hI2]
      have hb : (some (NId.node m)).bind (fun pid => getItemById t pid) =
          getItemById t (NId.node m) := rfl
      rw [hb, hG]
      show getIdxById t gRow.id + 1 ≤ t.length
      rw [hgrid]
      omega
  have hmemI : itI ∈ t.insertIdx (computeAddIdx itI t) itI :=
    (List.mem_insertIdx hkle).mpr (Or.inl rfl)
  refine ⟨fun x hx => mem_insertIdx_of_mem t _ itI x hx, ?_, ?_, ?_, ?_⟩
  · intro x hx
    rcases mem_of_mem_insertIdx t _ itI x hx with h | h
    · exact Or.inr (by rw [h]; exact ⟨hI1, hI2, hI3⟩)
    · exact Or.inl h
  · exact ⟨itI, hmemI, hI1, hI2, hI3⟩
  · exact getItemById_insertIdx_ne t _ itI (NId.node m) (by rw [hI1]; exact hneq)
  · have hpI : (fun it => decide (it.id = NId.node n)) itI = true := by
      simpa using hI1
    rw [getItemById]
    exact List.find?_isSome.mpr ⟨itI, hmemI, hpI⟩

/-- Single step of the re-add pass of a drag move: adding one copied item
whose parentID is the target folder's id succeeds and inserts exactly one
new row, carrying the copied id, the target folder's id as parentID and
the target folder's depth plus one as depth; every old row survives and the
target folder's row lookup is unchanged. -/
theorem hgridAddItem_step (root : HNode) (m : Nat) (ginfo : NInfo)
    (gcs : List HNode) (gd : Nat) (t : Store) (d : ObjData) (c n : Nat)
    (hgd : ginfo.depth = some gd)
    (ht : (getItemById t (NId.node m)).bind Item.node =
      some (HNode.tree ginfo gcs))
    (hpar : d.oparentID = some (NId.node m)) (hdep : d.odepth = none)
    (hoid : d.oid = some n) (hneq : NId.node n ≠ NId.node m) :
    ∃ t2, hgridAddItem root t d c = some (t2, c) ∧
      (∀ x ∈ t, x ∈ t2) ∧
      (∀ x ∈ t2, x ∈ t ∨ (x.id = NId.node n ∧ x.parentID = some (NId.node m) ∧
        x.depth = some (gd + 1))) ∧
      (∃ row ∈ t2, row.id = NId.node n ∧ row.parentID = some (NId.node m) ∧
        row.depth = some (gd + 1)) ∧
      ((getItemById t2 (NId.node m)).bind Item.node =
        some (HNode.tree ginfo gcs)) := by
  rcases hGr : getItemById t (NId.node m) with _ | gRow
  · rw [hGr] at ht; simp at ht
  have hsome : (getItemById t (NId.node m)).isSome = true := by rw [hGr]; rfl
  have hgrow : gRow.id = NId.node m := by simpa using List.find?_some hGr
  have hidx : getIdxById t (NId.node m) < t.length :=
    List.findIdx_lt_length_of_exists
      ⟨gRow, List.mem_of_find?_eq_some hGr, by simpa using hgrow⟩
  by_cases hk : d.kind = FOLDER
  · have hins : insertIntoDataView t (HNode.tree
        { id := NId.node n, parentID := some ginfo.id,
          depth := some (ginfo.depth.getD 0 + 1), data := d } []) =
        t.insertIdx (computeAddIdx (mkItem (HNode.tree
          { id := NId.node n, parentID := some ginfo.id,
            depth := some (ginfo.depth.getD 0 + 1), data := d } [])) t)
          (mkItem (HNode.tree
            { id := NId.node n, parentID := some ginfo.id,
              depth := some (ginfo.depth.getD 0 + 1), data := d } [])) := by
      rw [insertIntoDataView, HNode.toData, HNode.toDataList]
      rw [if_neg (by simp)]
      rw [List.singleton_append, insertData, insertData]
    have hI1 : (mkItem (HNode.tree
        { id := NId.node n, parentID := some ginfo.id,
          depth := some (ginfo.depth.getD 0 + 1), data := d } [])).id =
        NId.node n := by
      simp [mkItem, HNode.info]
    have hI2 : (mkItem (HNode.tree
        { id := NId.node n, parentID := some ginfo.id,
          depth := some (ginfo.depth.getD 0 + 1), data := d } [])).parentID =
        some (NId.node m) := by
      simp [mkItem, HNode.info, hpar]
    have hI3 : (mkItem (HNode.tree
        { id := NId.node n, parentID := some ginfo.id,
          depth := some (ginfo.depth.getD 0 + 1), data := d } [])).depth =
        some (gd + 1) := by
      simp [mkItem, HNode.info, hdep, hgd]
    rcases insert_copy_facts m n gd t _ hI1 hI2 hI3 hneq hidx hsome with
      ⟨f1, f2, f3, f4, f5⟩
    refine ⟨_, ?_, f1, f2, f3, by rw [f4]; exact ht⟩
    rcases hY : getItemById (t.insertIdx (computeAddIdx (mkItem (HNode.tree
        { id := NId.node n, parentID := some ginfo.id,
          depth := some (ginfo.depth.getD 0 + 1), data := d } [])) t)
        (mkItem (HNode.tree
          { id := NId.node n, parentID := some ginfo.id,
            depth := some (ginfo.depth.getD 0 + 1), data := d } [])))
        (NId.node n) with _ | y
    · rw [hY] at f5; simp at f5
    · simp only [hgridAddItem, newNodeFor, hoid, idAlloc, hk, if_true, hpar, getNodeByID]
      rw [ht]
      simp only [Option.some_bind, HNode.add, Option.bind_some, HNode.info,
        setAttached, if_true]
      rw [hins, hY, Option.map_some']
  · have hins : insertIntoDataView t (HNode.leaf
        { id := NId.node n, parentID := some ginfo.id,
          depth := some (ginfo.depth.getD 0 + 1), data := d }) =
        t.insertIdx (computeAddIdx (mkItem (HNode.leaf
          { id := NId.node n, parentID := some ginfo.id,
            depth := some (ginfo.depth.getD 0 + 1), data := d })) t)
          (mkItem (HNode.leaf
            { id := NId.node n, parentID := some ginfo.id,
              depth := some (ginfo.depth.getD 0 + 1), data := d })) := by
      rw [insertIntoDataView]
    have hI1 : (mkItem (HNode.leaf
        { id := NId.node n, parentID := some ginfo.id,
          depth := some (ginfo.depth.getD 0 + 1), data := d })).id =
        NId.node n := by
      simp [mkItem, HNode.info]
    have hI2 : (mkItem (HNode.leaf
        { id := NId.node n, parentID := some ginfo.id,
          depth := some (ginfo.depth.getD 0 + 1), data := d })).parentID =
        some (NId.node m) := by
      simp [mkItem, HNode.info, hpar]
    have hI3 : (mkItem (HNode.leaf
        { id := NId.node n, parentID := some ginfo.id,
          depth := some (ginfo.depth.getD 0 + 1), data := d })).depth =
        some (gd + 1) := by
      simp [mkItem, HNode.info, hdep, hgd]
    rcases insert_copy_facts m n gd t _ hI1 hI2 hI3 hneq hidx hsome with
      ⟨f1, f2, f3, f4, f5⟩
    refine ⟨_, ?_, f1, f2, f3, by rw [f4]; exact ht⟩
    rcases hY : getItemById (t.insertIdx (computeAddIdx (mkItem (HNode.leaf
        { id := NId.node n, parentID := some ginfo.id,
          depth := some (ginfo.depth.getD 0 + 1), data := d })) t)
        (mkItem (HNode.leaf
          { id := NId.node n, parentID := some ginfo.id,
            depth := some (ginfo.depth.getD 0 + 1), data := d })))
        (NId.node n) with _ | y
    · rw [hY] at f5; simp at f5
    · simp only [hgridAddItem, newNodeFor, hoid, idAlloc, hk, if_false, hpar, getNodeByID]
      rw [ht]
      simp only [Option.some_bind, HNode.add, Option.bind_some, HNode.info,
        setAttached, if_true]
      rw [hins, hY, Option.map_some']

/-- Whole re-add pass of a drag move: the copies are added one by one; all
surviving rows are old rows or carry the target folder's id and recomputed
depth, and each copy ends up as a row with its id, the target's id as
parentID and the target's depth plus one as depth. -/
theorem hgridAddItems_facts (root : HNode) (m : Nat) (ginfo : NInfo)
    (gcs : List HNode) (gd : Nat) (hgd : ginfo.depth = some gd)
    (ds : List ObjData) :
    ∀ (t : Store) (c : Nat),
    ((getItemById t (NId.node m)).bind Item.node =
      some (HNode.tree ginfo gcs)) →
    (∀ d ∈ ds, d.oparentID = some (NId.node m) ∧ d.odepth = none ∧
      ∃ n, d.oid = some n ∧ NId.node n ≠ NId.node m) →
    ∃ t2 c2, hgridAddItems root t ds c = some (t2, c2) ∧
      (∀ x ∈ t, x ∈ t2) ∧
      (∀ x ∈ t2, x ∈ t ∨ (x.parentID = some (NId.node m) ∧
        x.depth = some (gd + 1))) ∧
      (∀ d ∈ ds, ∃ row ∈ t2, row.id = idOfData d ∧
        row.parentID = some (NId.node m) ∧ row.depth = some (gd + 1)) := by
  induction ds with
  | nil =>
    intro t c ht _
    exact ⟨t, c, rfl, fun x hx => hx, fun x hx => Or.inl hx, by simp⟩
  | cons d rest ih =>
    intro t c ht hprops
    obtain ⟨hpar, hdep, n, hoid, hneq⟩ := hprops d (List.mem_cons_self d rest)
    rcases hgridAddItem_step root m ginfo gcs gd t d c n hgd ht hpar hdep hoid
      hneq with ⟨t1, hstep, s1, s2, s3, s4⟩
    rcases ih t1 c s4 (fun e he => hprops e (List.mem_cons_of_mem d he)) with
      ⟨t2, c2, hrest, r1, r2, r3⟩
    refine ⟨t2, c2, ?_, fun x hx => r1 x (s1 x hx), ?_, ?_⟩
    · rw [hgridAddItems, hstep]
      exact hrest
    · intro x hx
      rcases r2 x hx with h | h
      · rcases s2 x h with h2 | h2
        · exact Or.inl h2
        · exact Or.inr ⟨h2.2.1, h2.2.2⟩
      · exact Or.inr h
    · intro e he
      rcases List.mem_cons.mp he with h | h
      · subst h
        rcases s3 with ⟨row, hrow, hid, hp, hd2⟩
        refine ⟨row, r1 row hrow, ?_, hp, hd2⟩
        rw [hid]
        simp [idOfData, hoid]
      · exact r3 e h

/-- C6: for a drag move of rows onto a target folder (reached through its
row's _node back reference), the pipeline succeeds and each moved item is
re-added as a row whose parentID is the target folder's id and whose depth
is recomputed as the target folder's depth plus one; every surviving row
carrying a moved id has these recomputed fields, so no stale depth is
carried over. -/
theorem C6_move_recomputes_depth (root : HNode) (s : Store) (m : Nat)
    (ginfo : NInfo) (gcs : List HNode) (gd : Nat) (rows : List Nat) (c : Nat)
    (hnodup : (s.map Item.id).Nodup)
    (hg : (getItemById s (NId.node m)).bind Item.node =
      some (HNode.tree ginfo gcs))
    (hgd : ginfo.depth = some gd)
    (hmoved : ∀ it ∈ rows.filterMap (fun r => s[r]?),
      (it.id.toNat?).isSome = true ∧ it.id ≠ NId.node m) :
    ∃ t2 c2, onMoveRows root s (NId.node m) rows c = some (t2, c2) ∧
      ∀ it ∈ rows.filterMap (fun r => s[r]?),
        (∃ row ∈ t2, row.id = it.id) ∧
        (∀ row ∈ t2, row.id = it.id →
          row.parentID = some (NId.node m) ∧ row.depth = some (gd + 1)) := by
  have hidOf : ∀ it ∈ rows.filterMap (fun r => s[r]?),
      idOfData (itemToObjData it (NId.node m)) = it.id := by
    intro it hit
    rcases hmoved it hit with ⟨h1, _⟩
    rcases hid : it.id with _ | k
    · rw [hid] at h1; simp [NId.toNat? ] at h1
    · simp [idOfData, itemToObjData, hid, NId.toNat? ]
  have hne : ∀ d ∈ (rows.filterMap (fun r => s[r]?)).map
      (fun it => itemToObjData it (NId.node m)), NId.node m ≠ idOfData d := by
    intro d hd
    rcases List.mem_map.mp hd with ⟨it, hit, he⟩
    rw [← he, hidOf it hit]
    exact fun h2 => (hmoved it hit).2 h2.symm
  rcases deleteFold_facts ((rows.filterMap (fun r => s[r]?)).map
      (fun it => itemToObjData it (NId.node m))) s hnodup with ⟨d1, d2, d3⟩
  have hlook : getItemById ((((rows.filterMap (fun r => s[r]?)).map
      (fun it => itemToObjData it (NId.node m))).foldl
        (fun t ni => deleteItem t (idOfData ni)) s)) (NId.node m) =
      getItemById s (NId.node m) :=
    deleteFold_lookup _ s (NId.node m) hne
  have hprops : ∀ d ∈ (rows.filterMap (fun r => s[r]?)).map
      (fun it => itemToObjData it (NId.node m)),
      d.oparentID = some (NId.node m) ∧ d.odepth = none ∧
      ∃ n, d.oid = some n ∧ NId.node n ≠ NId.node m := by
    intro d hd
    rcases List.mem_map.mp hd with ⟨it, hit, he⟩
    rcases hmoved it hit with ⟨h1, h2⟩
    rcases hid : it.id with _ | k
    · rw [hid] at h1; simp [NId.toNat? ] at h1
    · refine ⟨by rw [← he]; rfl, by rw [← he]; rfl, k, ?_, ?_⟩
      · rw [← he]
        simp [itemToObjData, hid, NId.toNat? ]
      · rw [← hid]; exact h2
  rcases hgridAddItems_facts root m ginfo gcs gd hgd
      ((rows.filterMap (fun r => s[r]?)).map
        (fun it => itemToObjData it (NId.node m)))
      (((rows.filterMap (fun r => s[r]?)).map
        (fun it => itemToObjData it (NId.node m))).foldl
          (fun t ni => deleteItem t (idOfData ni)) s) c
      (by rw [hlook]; exact hg) hprops with ⟨t2, c2, ha, a1, a2, a3⟩
  refine ⟨t2, c2, ?_, ?_⟩
  · rw [onMoveRows]
    exact ha
  · intro it hit
    constructor
    · rcases a3 (itemToObjData it (NId.node m))
        (List.mem_map_of_mem _ hit) with ⟨row, hrow, hid2, _, _⟩
      exact ⟨row, hrow, by rw [hid2, hidOf it hit]⟩
    · intro row hrow hid2
      rcases a2 row hrow with h | h
      · exfalso
        refine d3 row h (itemToObjData it (NId.node m))
          (List.mem_map_of_mem _ hit) ?_
        rw [hid2, hidOf it hit]
      · exact h

/-- C6 witness: moving the b.txt row (row index 2) onto the docs folder of
the scenario re-adds it with docs as parent and depth 2. -/
theorem C6_move_recomputes_depth_witness :
    ((docsStore.map Item.id).Nodup ∧
      (getItemById docsStore (NId.node 0)).bind Item.node =
        some (HNode.tree docsInfo docsChildren) ∧
      docsInfo.depth = some 1 ∧
      (∀ it ∈ ([2] : List Nat).filterMap (fun r => docsStore[r]?),
        (it.id.toNat?).isSome = true ∧ it.id ≠ NId.node 0)) ∧
    (∃ t2 c2, onMoveRows docsTree docsStore (NId.node 0) [2] 10 =
        some (t2, c2) ∧
      ∀ it ∈ ([2] : List Nat).filterMap (fun r => docsStore[r]?),
        (∃ row ∈ t2, row.id = it.id) ∧
        (∀ row ∈ t2, row.id = it.id →
          row.parentID = some (NId.node 0) ∧ row.depth = some (1 + 1))) :=
  ⟨⟨by decide, rfl, rfl, by decide⟩,
    C6_move_recomputes_depth docsTree docsStore 0 docsInfo docsChildren 1 [2] 10
      (by decide) rfl rfl (by decide)⟩

end HGridJS
